import Mathlib

/-!
Phoenix-RTOS host tools: the SDP flashing driver (`psu/psu.c`) and the BSP2
message dispatcher (`dispatch.c`).

A shallow embedding of the two C sources and theorems about it.

Conventions of the embedding
* bytes, sizes and addresses are `Nat`, C `int` values are `Int`;
* a byte buffer (`unsigned char b[BUF_SIZE]`) is a `List Nat`;
* a pointer to caller data (`void *data`) is a function from byte offsets to bytes;
* everything outside the two files (the HID library, `open`, `msg_recv`,
  `phfs_handlemsg`, ...) is an explicit input: the functions below take the
  answers of the outside world as arguments and return the calls they made.
-/

namespace Psu

/-! ## SDP protocol section -/

/-- `#define CMD_SIZE 17` -/
def CMD_SIZE : Nat := 17

/-- `#define BUF_SIZE 1025` -/
def BUF_SIZE : Nat := 1025

/-- Byte order of the host the tool runs on. -/
inductive Endian
  | little
  | big
deriving DecidableEq, Repr

/-- Byte number `i` of the value `v`, byte 0 being the least significant one. -/
def byteOf (v i : Nat) : Nat := (v / 2 ^ (8 * i)) % 256

/-- The four bytes a host of byte order `e` keeps in memory for the `uint32_t`
value `v`, lowest address first. -/
def memBytes32 : Endian → Nat → List Nat
  | .little, v => [byteOf v 0, byteOf v 1, byteOf v 2, byteOf v 3]
  | .big, v => [byteOf v 3, byteOf v 2, byteOf v 1, byteOf v 0]

/-- The `uint32_t` value a host of byte order `e` reads from four bytes of
memory given lowest address first. -/
def ofMemBytes32 : Endian → List Nat → Nat
  | .little, bs => bs.getD 0 0 + 2 ^ 8 * bs.getD 1 0 + 2 ^ 16 * bs.getD 2 0 + 2 ^ 24 * bs.getD 3 0
  | .big, bs => bs.getD 3 0 + 2 ^ 8 * bs.getD 2 0 + 2 ^ 16 * bs.getD 1 0 + 2 ^ 24 * bs.getD 0 0

/-- `htonl`: the identity on a big-endian host, a byte swap on a little-endian
one. The argument is a `uint32_t`, so it is reduced modulo `2 ^ 32`. -/
def htonl : Endian → Nat → Nat
  | .big, v => v % 2 ^ 32
  | .little, v =>
    byteOf v 3 + 2 ^ 8 * byteOf v 2 + 2 ^ 16 * byteOf v 1 + 2 ^ 24 * byteOf v 0

/-- Consecutive byte stores `b[off] = x0; b[off + 1] = x1; ...`. -/
def writeBytes (b : List Nat) (off : Nat) : List Nat → List Nat
  | [] => b
  | x :: xs => writeBytes (b.set off x) (off + 1) xs

/-- `*((uint32_t*)(b + off)) = v` on a host of byte order `e`. -/
def store32 (e : Endian) (b : List Nat) (off v : Nat) : List Nat :=
  writeBytes b off (memBytes32 e v)

/-- `*(uint32_t*)(b + off)` on a host of byte order `e`. -/
def load32 (e : Endian) (b : List Nat) (off : Nat) : Nat :=
  ofMemBytes32 e ((b.drop off).take 4)

/-- `#define SET_CMD_TYPE(b,v) (b)[0]=(b)[1]=(v)`; `base` is the offset of the
macro's pointer argument inside the buffer (1 for `b + 1`). -/
def SET_CMD_TYPE (b : List Nat) (base v : Nat) : List Nat :=
  (b.set (base + 1) (v % 256)).set base (v % 256)

/-- `#define SET_ADDR(b,v) *((uint32_t*)((b)+2))=htonl(v)` -/
def SET_ADDR (e : Endian) (b : List Nat) (base v : Nat) : List Nat :=
  store32 e b (base + 2) (htonl e v)

/-- `#define SET_COUNT(b,v) *((uint32_t*)((b)+7))=htonl(v);` -/
def SET_COUNT (e : Endian) (b : List Nat) (base v : Nat) : List Nat :=
  store32 e b (base + 7) (htonl e v)

/-- `#define SET_DATA(b,v) *((uint32_t*)((b)+11))=htonl(v);` -/
def SET_DATA (e : Endian) (b : List Nat) (base v : Nat) : List Nat :=
  store32 e b (base + 11) (htonl e v)

/-- `#define SET_FORMAT(b,v) (b)[6]=(v);` -/
def SET_FORMAT (b : List Nat) (base v : Nat) : List Nat :=
  b.set (base + 6) (v % 256)

/-- `set_write_file_cmd(b, addr, size)`; both arguments are `uint32_t`. -/
def set_write_file_cmd (e : Endian) (b : List Nat) (base addr size : Nat) : List Nat :=
  let b1 := SET_CMD_TYPE b base 0x04
  let b2 := SET_ADDR e b1 base addr
  let b3 := SET_COUNT e b2 base size
  SET_FORMAT b3 base 0x20

/-- `set_dcd_write_cmd(b, addr, size)` -/
def set_dcd_write_cmd (e : Endian) (b : List Nat) (base addr size : Nat) : List Nat :=
  let b1 := SET_CMD_TYPE b base 0x0a
  let b2 := SET_ADDR e b1 base addr
  SET_COUNT e b2 base size

/-- `set_jmp_cmd(b, addr)` -/
def set_jmp_cmd (e : Endian) (b : List Nat) (base addr : Nat) : List Nat :=
  let b1 := SET_CMD_TYPE b base 0x0b
  let b2 := SET_ADDR e b1 base addr
  SET_FORMAT b2 base 0x20

/-- `set_status_cmd(b)` -/
def set_status_cmd (b : List Nat) (base : Nat) : List Nat :=
  SET_CMD_TYPE b base 0x05

/-- `set_write_reg_cmd(b, addr, v)` -/
def set_write_reg_cmd (e : Endian) (b : List Nat) (base addr v : Nat) : List Nat :=
  let b1 := SET_CMD_TYPE b base 0x02
  let b2 := SET_ADDR e b1 base addr
  let b3 := SET_DATA e b2 base v
  let b4 := SET_FORMAT b3 base 0x20
  SET_COUNT e b4 base 4

/-! ## The HID device seen from the driver -/

/-- One call of the driver into the HID library. -/
inductive HidCall
  | write (buf : List Nat)
  | get_feature_report (length : Nat)
deriving DecidableEq, Repr

/-- A HID device as the driver observes it: what every library call answers,
given the calls made before it. `write_rc` is the return value of `hid_write`
for the bytes handed over, `feature_report` the return value of
`hid_get_feature_report` and the bytes it stores into the caller's buffer. -/
structure hid_device where
  write_rc : List HidCall → List Nat → Int
  feature_report : List HidCall → Nat → Int × List Nat

/-- `hid_write(dev, b, len)`: sends the first `len` bytes of `b`. -/
def hid_write (dev : hid_device) (calls : List HidCall) (b : List Nat) (len : Nat) :
    Int × List HidCall :=
  (dev.write_rc calls (b.take len), calls ++ [HidCall.write (b.take len)])

/-- `hid_get_feature_report(dev, b, len)`: the device stores at most `len`
bytes at the start of `b`. -/
def hid_get_feature_report (dev : hid_device) (calls : List HidCall) (b : List Nat)
    (len : Nat) : Int × List Nat × List HidCall :=
  let r := dev.feature_report calls len
  (r.1, writeBytes b 0 (r.2.take len), calls ++ [HidCall.get_feature_report len])

/-- Lines the driver prints on `stderr`. -/
inductive Diag
  | send_command_failed (rc : Int)
  | send_contents_failed (rc : Int)
  | receive_hab_failed (n : Int)
  | complete_status_failed (b1 b2 b3 b4 : Nat)
deriving DecidableEq, Repr

/-- What one driver call leaves behind: its return value, the library calls it
made in order, and its diagnostics. -/
structure SdpResult where
  rc : Int
  calls : List HidCall
  stderr : List Diag
deriving DecidableEq, Repr

/-- `memcpy(b + dst, data + off, n)` -/
def memcpy (b : List Nat) (dst : Nat) (data : Nat → Nat) (off n : Nat) : List Nat :=
  writeBytes b dst ((List.range n).map (fun i => data (off + i)))

/-- The loop `while (offset < size) { ... }` of `sdp_writeFile` and of
`sdp_dcdWrite` (the two loops are the same text). The result is `some rc` when
a write failed with `rc < 0` and the function returns, `none` when the loop ran
to its end; with it come the buffer and the calls made so far. The cursor is
`ssize_t offset` and `n` an `int`: for `size < 2 ^ 63` no value computed here
leaves the range of its C type. -/
def send_contents (dev : hid_device) (data : Nat → Nat) (size offset : Nat)
    (b : List Nat) (calls : List HidCall) : Option Int × List Nat × List HidCall :=
  if offset < size then
    let n := if BUF_SIZE - 1 > size - offset then size - offset else BUF_SIZE - 1
    let b1 := memcpy b 1 data offset n
    let w := hid_write dev calls b1 (n + 1)
    if w.1 < 0 then (some w.1, b1, w.2)
    else send_contents dev data size (offset + n) b1 w.2
  else (none, b, calls)
termination_by size - offset
decreasing_by
  simp only [BUF_SIZE]
  split <;> omega

/-- The two status reads that end `sdp_writeFile` and `sdp_dcdWrite`; `magic`
is the completion word the second report is compared with. The assignment in
`(rc = hid_get_feature_report(dev, b, BUF_SIZE) < 0) || ...` stores the result
of the comparison, so `rc` is 1 when the read failed and 0 otherwise. -/
def receive_status (e : Endian) (dev : hid_device) (magic : Nat) (b : List Nat)
    (calls : List HidCall) : SdpResult :=
  let r1 := hid_get_feature_report dev calls b BUF_SIZE
  if r1.1 < 5 then ⟨-1, r1.2.2, [Diag.receive_hab_failed r1.1]⟩
  else
    let r2 := hid_get_feature_report dev r1.2.2 r1.2.1 BUF_SIZE
    let rc : Int := if r2.1 < 0 then 1 else 0
    let b2 := r2.2.1
    if rc ≠ 0 ∨ load32 e b2 1 ≠ magic then
      ⟨rc, r2.2.2, [Diag.complete_status_failed (b2.getD 1 0) (b2.getD 2 0) (b2.getD 3 0) (b2.getD 4 0)]⟩
    else ⟨rc, r2.2.2, []⟩

/-- `int sdp_writeFile(hid_device *dev, uint32_t addr, void *data, size_t size)` -/
def sdp_writeFile (e : Endian) (dev : hid_device) (addr : Nat) (data : Nat → Nat)
    (size : Nat) : SdpResult :=
  let b0 := (List.replicate BUF_SIZE 0).set 0 1
  let b1 := set_write_file_cmd e b0 1 addr (size % 2 ^ 32)
  let w := hid_write dev [] b1 CMD_SIZE
  if w.1 < 0 then ⟨w.1, w.2, [Diag.send_command_failed w.1]⟩
  else
    match send_contents dev data size 0 (b1.set 0 2) w.2 with
    | (some rc, _, calls) => ⟨rc, calls, [Diag.send_contents_failed rc]⟩
    | (none, b2, calls) => receive_status e dev 0x88888888 b2 calls

/-- `int sdp_dcdWrite(hid_device *dev, uint32_t addr, void *data, size_t size)` -/
def sdp_dcdWrite (e : Endian) (dev : hid_device) (addr : Nat) (data : Nat → Nat)
    (size : Nat) : SdpResult :=
  let b0 := (List.replicate BUF_SIZE 0).set 0 1
  let b1 := set_dcd_write_cmd e b0 1 addr (size % 2 ^ 32)
  let w := hid_write dev [] b1 CMD_SIZE
  if w.1 < 0 then ⟨w.1, w.2, [Diag.send_command_failed w.1]⟩
  else
    match send_contents dev data size 0 (b1.set 0 2) w.2 with
    | (some rc, _, calls) => ⟨rc, calls, [Diag.send_contents_failed rc]⟩
    | (none, b2, calls) => receive_status e dev 0x12a8a812 b2 calls

/-! ## Waiting for the device -/

/-- One call of `wait_cmd` into the outside world. -/
inductive WaitCall
  | hid_enumerate (vid pid : Nat)
  | sleep (seconds : Nat)
deriving DecidableEq, Repr

/-- `open_device_with_vid_pid`: `list` is the enumeration `hid_enumerate`
returned, each entry holding the answer of `hid_open_path` for that device
(`none` for `NULL`). The loop stops at the first device that opens. -/
def open_device_with_vid_pid {α : Type} : List (Option α) → Option α
  | [] => none
  | some h :: _ => some h
  | none :: rest => open_device_with_vid_pid rest

/-- What `wait_cmd` leaves behind: its return value, `*dev`, and its calls. -/
structure WaitResult (α : Type) where
  rc : Int
  dev : Option α
  calls : List WaitCall
deriving DecidableEq, Repr

/-- The loop of `wait_cmd`, entered with the current value of `retries`.
`world n` is the enumeration the `n`-th call of `open_device_with_vid_pid`
finds (counted from 0) and `attempt` the number of calls made so far. -/
def wait_loop {α : Type} (world : Nat → List (Option α)) (attempt retries : Nat) :
    WaitResult α :=
  match open_device_with_vid_pid (world attempt) with
  | some h => ⟨0, some h, [WaitCall.hid_enumerate 0x15a2 0x0]⟩
  | none =>
    if retries > 10 then ⟨-1, none, [WaitCall.hid_enumerate 0x15a2 0x0]⟩
    else
      let r := wait_loop world (attempt + 1) (retries + 1)
      ⟨r.rc, r.dev, WaitCall.hid_enumerate 0x15a2 0x0 :: WaitCall.sleep 1 :: r.calls⟩
termination_by 11 - retries
decreasing_by omega

/-- `int wait_cmd(hid_device **dev)` -/
def wait_cmd {α : Type} (world : Nat → List (Option α)) : WaitResult α :=
  wait_loop world 0 0

/-! ## The script interpreter -/

/-- Lines the interpreter prints on `stderr`. -/
inductive ScriptDiag
  | parsing (lineno : Nat) (tok : List Char)
  | unrecognized (tok : List Char) (lineno : Nat)
deriving DecidableEq, Repr

/-- `strtok(line, " ")`, first call: leading spaces are skipped, the token runs
up to the next space or the end of the string; `none` is `NULL`, returned when
the string holds nothing but spaces. -/
def strtok (line : List Char) : Option (List Char) :=
  let s := line.dropWhile (fun c => c = ' ')
  if s = [] then none else some (s.takeWhile (fun c => c ≠ ' '))

/-- `int decode_line(char *line, size_t len, size_t lineno)`. `line` is the C
string the pointer refers to (the characters before the terminating NUL).
The result is `none` when `strtok` returns `NULL`: the code then calls
`strlen(NULL)`, which has no defined behaviour. -/
def decode_line (line : List Char) (_len : Nat) (lineno : Nat) : Option (Int × List ScriptDiag) :=
  match strtok line with
  | none => none
  | some tok =>
    if tok.head? ≠ some '\n' ∧ tok.head? ≠ some '#' then
      let tok1 := if tok.getLast? = some '\n' then tok.dropLast else tok
      let d := ScriptDiag.parsing lineno tok1
      if tok1 = "WAIT".toList then some (0, [d])
      else if tok1 = "WRITE_FILE".toList then some (0, [d])
      else if tok1 = "ARGS".toList then some (0, [d])
      else if tok1 = "JUMP_ADDRESS".toList then some (0, [d])
      else if tok1 = "DCD_WRITE".toList then some (0, [d])
      else if tok1 = "PROMPT".toList then some (0, [d])
      else if tok1 = "REBOOT".toList then some (0, [d])
      else some (-1, [d, ScriptDiag.unrecognized tok1 lineno])
    else some (0, [])

/-- Conversion of a value to C `int` (two's complement, 32 bits). -/
def to_int (x : Int) : Int := (x + 2 ^ 31) % 2 ^ 32 - 2 ^ 31

/-- The lines successive `getline` calls return for a file of the given
content: every line runs up to and including its newline, the last one may
lack it. -/
def getlines : List Char → List (List Char)
  | [] => []
  | c :: cs =>
    if c = '\n' then [c] :: getlines cs
    else
      match getlines cs with
      | [] => [[c]]
      | l :: ls => (c :: l) :: ls

/-- The C string found in a buffer: its characters before the first NUL. -/
def cstr (raw : List Char) : List Char := raw.takeWhile (fun c => c ≠ Char.ofNat 0)

/-- What `main` leaves behind: its return value, its diagnostics, and the
number of lines `getline` handed to `decode_line`. -/
structure MainResult where
  rc : Int
  stderr : List ScriptDiag
  decoded : Nat
deriving DecidableEq, Repr

/-- The loop `while (script != NULL && (res = getline(...)) > 0)` of `main`
over the lines still unread; `lineno` is the current value of the counter.
At the end of the input `getline` returns -1. `res` is an `int`, so the
length `getline` returns is converted. The result is `none` when
`decode_line` has no defined behaviour. -/
def interpret : List (List Char) → Nat → Option MainResult
  | [], _ => some ⟨-1, [], 0⟩
  | l :: ls, lineno =>
    let res := to_int l.length
    if res > 0 then
      match decode_line (cstr l) res.toNat lineno with
      | none => none
      | some (r, d) =>
        if r < 0 then some ⟨-1, d, 1⟩
        else
          match interpret ls (lineno + 1) with
          | none => none
          | some m => some ⟨m.rc, d ++ m.stderr, m.decoded + 1⟩
    else some ⟨res, [], 0⟩

/-- `int main(int argc, char *argv[])`. `script` is the content of the file
`argv[1]` names, `none` when `fopen` fails. In that case the loop is not
entered and `res` is returned uninitialised: the result is `none`. -/
def main (argc : Nat) (script : Option (List Char)) : Option MainResult :=
  if argc ≠ 2 then some ⟨-1, [], 0⟩
  else
    match script with
    | none => none
    | some content => interpret (getlines content) 0

/-! ## Definitions used to state the properties of the driver -/

/-- Big-endian reading of a four-byte field, as the record layout documents it. -/
def be32 (bs : List Nat) : Nat :=
  2 ^ 24 * bs.getD 0 0 + 2 ^ 16 * bs.getD 1 0 + 2 ^ 8 * bs.getD 2 0 + bs.getD 3 0

/-- The buffers of the `hid_write` calls among `calls`, in order. -/
def writes : List HidCall → List (List Nat)
  | [] => []
  | HidCall.write b :: cs => b :: writes cs
  | HidCall.get_feature_report _ :: cs => writes cs

/-- The report the loop sends when its cursor stands at `off`: the report id 2
and then at most `BUF_SIZE - 1` bytes of the payload. -/
def chunk_at (data : Nat → Nat) (size off : Nat) : List Nat :=
  2 :: (List.range (min (BUF_SIZE - 1) (size - off))).map (fun i => data (off + i))

/-- The reports the loop sends from cursor position `off` to the end. -/
def chunks_from (data : Nat → Nat) (size off : Nat) : List (List Nat) :=
  (List.range ((size - off + (BUF_SIZE - 2)) / (BUF_SIZE - 1))).map
    (fun k => chunk_at data size (off + (BUF_SIZE - 1) * k))

/-- The chunked transfer of an `N`-byte payload as the specification words it:
after the command record come `ceil(N / (BUF_SIZE - 1))` payload writes; each
starts with the data report id and carries the next bytes of the payload,
`BUF_SIZE - 1` of them in every write but the last, and in the last
`N mod (BUF_SIZE - 1)`, or `BUF_SIZE - 1` when that is zero. -/
def ChunkedTransfer (calls : List HidCall) (data : Nat → Nat) (N : Nat) : Prop :=
  ∃ cmd chunks, writes calls = cmd :: chunks ∧ cmd.length = CMD_SIZE ∧
    chunks.length = (N + (BUF_SIZE - 2)) / (BUF_SIZE - 1) ∧
    ∀ i (h : i < chunks.length),
      (chunks.get ⟨i, h⟩).head? = some 2 ∧
      (chunks.get ⟨i, h⟩).tail =
        (List.range (chunks.get ⟨i, h⟩).tail.length).map
          (fun j => data ((BUF_SIZE - 1) * i + j)) ∧
      (i + 1 < chunks.length → (chunks.get ⟨i, h⟩).tail.length = BUF_SIZE - 1) ∧
      (i + 1 = chunks.length → (chunks.get ⟨i, h⟩).tail.length =
        if N % (BUF_SIZE - 1) = 0 then BUF_SIZE - 1 else N % (BUF_SIZE - 1))

/-- A device on which every write and the first status read succeed and every
later status read fails with -1. -/
def status_failing_device : hid_device where
  write_rc := fun _ buf => buf.length
  feature_report := fun calls len =>
    if HidCall.get_feature_report len ∈ calls then (-1, [])
    else (5, [3, 0x56, 0x78, 0x78, 0x56])

/-- A device on which every call succeeds; status reads fill the whole buffer
and report the completion word of a file write. -/
def accepting_device : hid_device where
  write_rc := fun _ buf => buf.length
  feature_report := fun _ len => (len, [3, 0x88, 0x88, 0x88, 0x88])

/-- The calls of `k` failed attempts that are retried: each an enumeration
followed by a sleep of one second. -/
def retry_rounds : Nat → List WaitCall
  | 0 => []
  | k + 1 => WaitCall.hid_enumerate 0x15a2 0x0 :: WaitCall.sleep 1 :: retry_rounds k

/-- The number of enumeration attempts among the calls. -/
def enumerations (calls : List WaitCall) : Nat :=
  calls.countP (fun c => decide (c = WaitCall.hid_enumerate 0x15a2 0x0))

/-- The number of sleeps of one second among the calls. -/
def sleeps (calls : List WaitCall) : Nat :=
  calls.countP (fun c => decide (c = WaitCall.sleep 1))

/-- An environment in which no device is ever enumerated. -/
def no_device : Nat → List (Option Nat) := fun _ => []

/-- An environment in which the device enumerates from the start but opens
only at the fourth attempt. -/
def late_device : Nat → List (Option Nat) := fun n => if n < 3 then [none] else [some 7]

/-- The command keywords of the script language. -/
def keywords : List (List Char) :=
  ["WAIT".toList, "WRITE_FILE".toList, "ARGS".toList, "JUMP_ADDRESS".toList,
    "DCD_WRITE".toList, "PROMPT".toList, "REBOOT".toList]

/-- White space as C's `isspace` defines it: space, tab, newline, vertical
tab, form feed and carriage return. -/
def is_whitespace (c : Char) : Bool :=
  c = ' ' || c = '\t' || c = '\n' || c = Char.ofNat 11 || c = Char.ofNat 12 || c = '\r'

/-- The first whitespace-delimited token of a line, in the words of the
specification: leading white space is skipped and the token runs up to the
next white space. -/
def first_whitespace_token (line : List Char) : List Char :=
  (line.dropWhile is_whitespace).takeWhile (fun c => !is_whitespace c)

/-- A token with one trailing newline removed. -/
def without_trailing_newline (tok : List Char) : List Char :=
  if tok.getLast? = some '\n' then tok.dropLast else tok

/-- The first space-delimited token of a line with a trailing newline
removed, when the line has such a token and it starts neither with a newline
(an empty line) nor with `#` (a comment). -/
def first_keyword (line : List Char) : Option (List Char) :=
  match strtok line with
  | none => none
  | some tok =>
    if tok.head? = some '\n' ∨ tok.head? = some '#' then none
    else some (without_trailing_newline tok)

/-- A line is empty or a comment: its first space-delimited token starts with
a newline or with `#`. -/
def empty_or_comment (line : List Char) : Bool :=
  match strtok line with
  | none => false
  | some tok => decide (tok.head? = some '\n' ∨ tok.head? = some '#')

/-- A line the interpreter passes over without an error: an empty line, a
comment, or a line whose first space-delimited token is a keyword. -/
def accepted (line : List Char) : Bool :=
  empty_or_comment line ||
    match first_keyword line with
    | none => false
    | some k => decide (k ∈ keywords)

end Psu

namespace Dispatch

/-! ## BSP2 message dispatcher (`dispatch.c`) -/

/-- Modelled from the spec: `dmode_t` of `dispatch.h` (not among the sources),
the transport kinds "serial line, UDP socket, or a pair of named pipes". -/
inductive dmode_t
  | SERIAL
  | UDP
  | PIPE
deriving DecidableEq, Repr

/-- Modelled from the spec: `msg_t` of `msg.h` (not among the sources), "a
typed, length-bounded unit" with the attributes `type`, `length` and `payload`. -/
structure msg_t where
  type : Nat
  len : Nat
  payload : List Nat
deriving DecidableEq, Repr

/-- Modelled from the spec: `msg_gettype` of `msg.h`, the message's type. -/
def msg_gettype (m : msg_t) : Nat := m.type

/-- Modelled from the spec: `msg_settype` of `msg.h`, which re-types a message. -/
def msg_settype (m : msg_t) (t : Nat) : msg_t := { m with type := t }

/-- Modelled from the spec: `msg_setlen` of `msg.h`, which overwrites the length. -/
def msg_setlen (m : msg_t) (l : Nat) : msg_t := { m with len := l }

/-- Constants of `errors.h` and `msg.h`, which are not among the sources. -/
structure Consts where
  ERR_DISPATCH_IO : Int
  MSGRECV_DESYN : Int
  MSG_ERR : Nat
  MSG_MAXLEN : Nat
deriving DecidableEq, Repr

/-- One call (or diagnostic) of the dispatcher. -/
inductive Event
  | open_rdonly
  | open_wronly
  | cannot_open_pipe
  | msg_recv (fd state : Int)
  | receiving_error (state : Int)
  | usleep (usec : Nat)
  | phfs_handlemsg (fd : Int) (msg : msg_t)
  | msg_send (fd : Int) (msg : msg_t)
deriving DecidableEq, Repr

/-- The variables of `dispatch` that live across loop iterations. -/
structure Loop where
  fd : Int
  fd_out : Int
  retries : Int
  state : Int
deriving DecidableEq, Repr

/-- What the outside world answers during one loop iteration: the return value
of `msg_recv` with the message and state it stores, the return values of the
two `open` calls of `connect_pipes` (read when they are made), and the return
value of `phfs_handlemsg` with the message as the handler leaves it. -/
structure World where
  recv_rc : Int
  recv_msg : msg_t
  recv_state : Int
  open_in : Int
  open_out : Int
  handle_rc : Int
  handle_msg : msg_t
deriving DecidableEq, Repr

/-- `connect_pipes(dev_in, dev_out, &fd_in, &fd_out)`: the return value, the
two descriptors afterwards, and the calls made. -/
def connect_pipes (c : Consts) (open_in open_out : Int) (fd_out : Int) :
    Int × Int × Int × List Event :=
  if open_in < 0 then
    (c.ERR_DISPATCH_IO, open_in, fd_out, [Event.open_rdonly, Event.cannot_open_pipe])
  else if open_out < 0 then
    (c.ERR_DISPATCH_IO, open_in, open_out,
      [Event.open_rdonly, Event.open_wronly, Event.cannot_open_pipe])
  else (0, open_in, open_out, [Event.open_rdonly, Event.open_wronly])

/-- Conversion of a value to C `int` (two's complement, 32 bits). -/
def to_int (x : Int) : Int := (x + 2 ^ 31) % 2 ^ 32 - 2 ^ 31

/-- One pass through the body of `for (state = MSGRECV_DESYN;;)`. The
decrement `--retries` of the `int` counter is taken to wrap around at
`INT_MIN`, as it does on two's complement hardware. -/
def dispatch_iter (c : Consts) (mode : dmode_t) (s : Loop) (w : World) : Loop × List Event :=
  if w.recv_rc < 0 then
    let ev := [Event.msg_recv s.fd s.state, Event.receiving_error w.recv_state]
    if mode = dmode_t.PIPE then
      let r := to_int (s.retries - 1)
      if r ≠ 0 then
        let cp := connect_pipes c w.open_in w.open_out s.fd_out
        (⟨cp.2.1, cp.2.2.1, r, w.recv_state⟩, ev ++ Event.usleep 10000 :: cp.2.2.2)
      else (⟨s.fd, s.fd_out, r, w.recv_state⟩, ev)
    else (⟨s.fd, s.fd_out, s.retries, w.recv_state⟩, ev)
  else
    let reply_fd := if mode = dmode_t.PIPE then s.fd_out else s.fd
    let ev := [Event.msg_recv s.fd s.state, Event.phfs_handlemsg reply_fd w.recv_msg]
    let s1 : Loop := ⟨s.fd, s.fd_out, s.retries, w.recv_state⟩
    if w.handle_rc ≠ 0 then (s1, ev)
    else if msg_gettype w.handle_msg = c.MSG_ERR then
      let m := msg_setlen (msg_settype w.handle_msg c.MSG_ERR) c.MSG_MAXLEN
      (s1, ev ++ [Event.msg_send reply_fd m])
    else (s1, ev)

/-- The first `ws.length` iterations of the loop of `dispatch`, which never
ends by itself: the variables afterwards and the calls made, in order. -/
def dispatch_loop (c : Consts) (mode : dmode_t) : Loop → List World → Loop × List Event
  | s, [] => (s, [])
  | s, w :: ws =>
    let r := dispatch_iter c mode s w
    let r2 := dispatch_loop c mode r.1 ws
    (r2.1, r.2 ++ r2.2)

/-- What the outside world answers while `dispatch` opens its transport. -/
structure Startup where
  serial_open : Int
  udp_open : Int
  open_in : Int
  open_out : Int
deriving DecidableEq, Repr

/-- The part of `dispatch` before the loop: the error it returns, or the
variables the loop starts with. -/
def dispatch_start (c : Consts) (mode : dmode_t) (st : Startup) : Except Int Loop :=
  match mode with
  | dmode_t.SERIAL =>
    if st.serial_open < 0 then Except.error c.ERR_DISPATCH_IO
    else Except.ok ⟨st.serial_open, -1, 128, c.MSGRECV_DESYN⟩
  | dmode_t.UDP =>
    if st.udp_open < 0 then Except.error c.ERR_DISPATCH_IO
    else Except.ok ⟨st.udp_open, -1, 128, c.MSGRECV_DESYN⟩
  | dmode_t.PIPE =>
    let cp := connect_pipes c st.open_in st.open_out (-1)
    if cp.1 ≠ 0 then Except.error c.ERR_DISPATCH_IO
    else Except.ok ⟨cp.2.1, cp.2.2.1, 128, c.MSGRECV_DESYN⟩

/-- `int dispatch(char *dev_addr, dmode_t mode, unsigned int speed_port, char *sysdir)`
followed through its first `ws.length` loop iterations: the error returned
before the loop, or the variables and the calls of the loop so far. -/
def dispatch (c : Consts) (mode : dmode_t) (st : Startup) (ws : List World) :
    Except Int (Loop × List Event) :=
  match dispatch_start c mode st with
  | Except.error e => Except.error e
  | Except.ok s => Except.ok (dispatch_loop c mode s ws)

/-! ## Definitions used to state the properties of the dispatcher -/

/-- The replies among the calls: the handle and the message of every `msg_send`. -/
def sends : List Event → List (Int × msg_t)
  | [] => []
  | Event.msg_send fd m :: evs => (fd, m) :: sends evs
  | _ :: evs => sends evs

/-- Whether a call is a backoff sleep or the start of a reconnect attempt
(every `connect_pipes` begins with `open(dev_in, O_RDONLY)`). -/
def is_backoff_or_reconnect : Event → Bool
  | Event.usleep _ => true
  | Event.open_rdonly => true
  | _ => false

/-- The backoff sleeps and reconnect attempts among the calls, in order. -/
def backoffs_and_reconnects (evs : List Event) : List Event :=
  evs.filter is_backoff_or_reconnect

/-- What the specification expects of one receive outcome in pipe mode while
retries remain: a failure gives one 10 ms backoff and then one reconnect
attempt, a success gives neither. -/
def expected_recovery (w : World) : List Event :=
  if w.recv_rc < 0 then [Event.usleep 10000, Event.open_rdonly] else []

/-- The number of failed receives among the outcomes. -/
def failures (ws : List World) : Nat :=
  ws.countP (fun w => decide (w.recv_rc < 0))

/-- Values for the constants of the absent headers, used in examples. -/
def example_consts : Consts := ⟨-1, 0, 0, 512⟩

/-- An outside world in which every pipe opens (descriptors 3 and 4). -/
def example_startup : Startup := ⟨-1, -1, 3, 4⟩

/-- A loop iteration in which `msg_recv` fails and the pipes reopen. -/
def failing_world : World := ⟨-1, ⟨0, 0, []⟩, 0, 5, 6, 0, ⟨0, 0, []⟩⟩

/-- A loop iteration in which `msg_recv` succeeds and the handler accepts a
message of a type other than the error type. -/
def succeeding_world : World := ⟨0, ⟨1, 4, [1, 2, 3, 4]⟩, 0, 5, 6, 0, ⟨1, 4, [1, 2, 3, 4]⟩⟩

end Dispatch

/-! # Theorems -/

namespace Psu

/-! ## Buffers and the command record -/

theorem writeBytes_length (xs : List Nat) : ∀ (b : List Nat) (off : Nat),
    (writeBytes b off xs).length = b.length := by
  induction xs with
  | nil => intro b off; rfl
  | cons x xs ih => intro b off; simp [writeBytes, ih]

theorem writeBytes_append (xs : List Nat) : ∀ (p q : List Nat),
    xs.length ≤ q.length → writeBytes (p ++ q) p.length xs = p ++ xs ++ q.drop xs.length := by
  induction xs with
  | nil => intro p q _; simp [writeBytes]
  | cons x xs ih =>
    intro p q h
    cases q with
    | nil => simp at h
    | cons y q =>
      simp only [List.length_cons, Nat.add_le_add_iff_right] at h
      have hs : (p ++ y :: q).set p.length x = (p ++ [x]) ++ q := by
        rw [List.set_append_right _ _ (Nat.le_refl _)]
        simp
      have hl : p.length + 1 = (p ++ [x]).length := by simp
      rw [writeBytes, hs, hl, ih (p ++ [x]) q h]
      simp

theorem writeBytes_eq (xs b : List Nat) (off : Nat) (h : off + xs.length ≤ b.length) :
    writeBytes b off xs = b.take off ++ xs ++ b.drop (off + xs.length) := by
  have hl : (b.take off).length = off := by rw [List.length_take]; omega
  have h1 := writeBytes_append xs (b.take off) (b.drop off) (by rw [List.length_drop]; omega)
  rw [hl, List.take_append_drop] at h1
  rw [h1, List.drop_drop, Nat.add_comm]

theorem replicate_buf :
    List.replicate BUF_SIZE (0 : Nat) =
      [0, 0, 0, 0, 0, 0, 0, 0, 0, 0, 0, 0, 0, 0, 0, 0, 0] ++ List.replicate 1008 0 := by
  rfl

theorem byteOf_lt (v i : Nat) : byteOf v i < 256 := Nat.mod_lt _ (by norm_num)

theorem byteOf_compose (a b c d : Nat) (ha : a < 256) (hb : b < 256) (hc : c < 256)
    (hd : d < 256) :
    byteOf (a + 2 ^ 8 * b + 2 ^ 16 * c + 2 ^ 24 * d) 0 = a ∧
    byteOf (a + 2 ^ 8 * b + 2 ^ 16 * c + 2 ^ 24 * d) 1 = b ∧
    byteOf (a + 2 ^ 8 * b + 2 ^ 16 * c + 2 ^ 24 * d) 2 = c ∧
    byteOf (a + 2 ^ 8 * b + 2 ^ 16 * c + 2 ^ 24 * d) 3 = d := by
  simp only [byteOf]
  norm_num
  omega

theorem byteOf_mod (v i : Nat) (hi : i < 4) : byteOf (v % 2 ^ 32) i = byteOf v i := by
  simp only [byteOf]
  interval_cases i <;> norm_num <;> omega

theorem be32_byteOf (v : Nat) (hv : v < 2 ^ 32) :
    be32 [byteOf v 3, byteOf v 2, byteOf v 1, byteOf v 0] = v := by
  simp only [be32, byteOf, List.getD_cons_zero, List.getD_cons_succ]
  norm_num at hv ⊢
  omega

theorem memBytes32_htonl (e : Endian) (v : Nat) :
    memBytes32 e (htonl e v) = [byteOf v 3, byteOf v 2, byteOf v 1, byteOf v 0] := by
  cases e
  · obtain ⟨h0, h1, h2, h3⟩ := byteOf_compose (byteOf v 3) (byteOf v 2) (byteOf v 1)
      (byteOf v 0) (byteOf_lt _ _) (byteOf_lt _ _) (byteOf_lt _ _) (byteOf_lt _ _)
    simp only [memBytes32, htonl, h0, h1, h2, h3]
  · simp only [memBytes32, htonl, byteOf_mod v 3 (by norm_num), byteOf_mod v 2 (by norm_num),
      byteOf_mod v 1 (by norm_num), byteOf_mod v 0 (by norm_num)]

set_option maxRecDepth 4000 in
theorem write_file_record (e : Endian) (addr size : Nat) :
    (set_write_file_cmd e ((List.replicate BUF_SIZE 0).set 0 1) 1 addr size).take CMD_SIZE =
      [1, 4, 4, byteOf addr 3, byteOf addr 2, byteOf addr 1, byteOf addr 0, 32,
        byteOf size 3, byteOf size 2, byteOf size 1, byteOf size 0, 0, 0, 0, 0, 0] := by
  rw [replicate_buf]
  simp [set_write_file_cmd, SET_CMD_TYPE, SET_ADDR, SET_COUNT, SET_FORMAT, store32,
    memBytes32_htonl, writeBytes, CMD_SIZE]

theorem set_write_file_cmd_length (e : Endian) (b : List Nat) (base addr size : Nat) :
    (set_write_file_cmd e b base addr size).length = b.length := by
  simp [set_write_file_cmd, SET_CMD_TYPE, SET_ADDR, SET_COUNT, SET_FORMAT, store32,
    writeBytes_length]

theorem set_dcd_write_cmd_length (e : Endian) (b : List Nat) (base addr size : Nat) :
    (set_dcd_write_cmd e b base addr size).length = b.length := by
  simp [set_dcd_write_cmd, SET_CMD_TYPE, SET_ADDR, SET_COUNT, store32, writeBytes_length]

/-! ## The transfer loop -/

theorem writes_append (xs ys : List HidCall) : writes (xs ++ ys) = writes xs ++ writes ys := by
  induction xs with
  | nil => rfl
  | cons c cs ih => cases c <;> simp [writes, ih]

theorem writes_map_write (l : List (List Nat)) : writes (l.map HidCall.write) = l := by
  induction l with
  | nil => rfl
  | cons c cs ih => simp [writes, ih]

theorem memcpy_take (b : List Nat) (data : Nat → Nat) (off n : Nat) (hn : n + 1 ≤ b.length)
    (h2 : b.head? = some 2) :
    (memcpy b 1 data off n).take (n + 1) =
      2 :: (List.range n).map (fun i => data (off + i)) := by
  rw [memcpy, writeBytes_eq _ _ _ (by simp; omega)]
  cases b with
  | nil => simp at h2
  | cons x xs =>
    simp only [List.head?_cons, Option.some.injEq] at h2
    subst h2
    simp [List.take_append_eq_append_take]

theorem memcpy_head (b : List Nat) (data : Nat → Nat) (off n : Nat) (hn : n + 1 ≤ b.length)
    (h2 : b.head? = some 2) : (memcpy b 1 data off n).head? = some 2 := by
  have h := memcpy_take b data off n hn h2
  have h3 : ((memcpy b 1 data off n).take (n + 1)).head? = some 2 := by rw [h]; rfl
  rw [List.head?_take, if_neg (by omega)] at h3
  exact h3

theorem chunks_from_done (data : Nat → Nat) (size off : Nat) (h : ¬ off < size) :
    chunks_from data size off = [] := by
  have : (size - off + (BUF_SIZE - 2)) / (BUF_SIZE - 1) = 0 := by
    simp only [BUF_SIZE]; omega
  simp [chunks_from, this]

theorem chunks_from_step (data : Nat → Nat) (size off : Nat) (h : off < size) :
    chunks_from data size off =
      chunk_at data size off ::
        chunks_from data size
          (off + if BUF_SIZE - 1 > size - off then size - off else BUF_SIZE - 1) := by
  by_cases hc : BUF_SIZE - 1 > size - off
  · rw [if_pos hc, chunks_from_done data size (off + (size - off)) (by omega)]
    have h1 : (size - off + (BUF_SIZE - 2)) / (BUF_SIZE - 1) = 1 := by
      simp only [BUF_SIZE] at hc ⊢; omega
    rw [chunks_from, h1]
    rfl
  · rw [if_neg hc]
    have h1 : (size - off + (BUF_SIZE - 2)) / (BUF_SIZE - 1) =
        (size - (off + (BUF_SIZE - 1)) + (BUF_SIZE - 2)) / (BUF_SIZE - 1) + 1 := by
      simp only [BUF_SIZE] at hc ⊢; omega
    rw [chunks_from, h1, List.range_succ_eq_map, chunks_from]
    simp only [List.map_cons, List.map_map, Nat.mul_zero, Nat.add_zero]
    refine congrArg _ (List.map_congr_left ?_)
    intro k _
    simp only [Function.comp, Nat.mul_succ]
    congr 1
    omega

theorem send_contents_ok (dev : hid_device) (data : Nat → Nat) (size : Nat)
    (hw : ∀ h buf, 0 ≤ dev.write_rc h buf) :
    ∀ (m offset : Nat) (b : List Nat) (calls : List HidCall), size - offset = m →
      b.length = BUF_SIZE → b.head? = some 2 →
      ∃ b1, send_contents dev data size offset b calls =
          (none, b1, calls ++ (chunks_from data size offset).map HidCall.write) ∧
        b1.length = BUF_SIZE ∧ b1.head? = some 2 := by
  intro m
  induction m using Nat.strong_induction_on with
  | _ m ih =>
    intro offset b calls hm hb h2
    rw [send_contents]
    by_cases hlt : offset < size
    · rw [if_pos hlt]
      have hn : (if BUF_SIZE - 1 > size - offset then size - offset else BUF_SIZE - 1) + 1
          ≤ b.length := by
        rw [hb]; simp only [BUF_SIZE]; split <;> omega
      have hpos : 0 < (if BUF_SIZE - 1 > size - offset then size - offset else BUF_SIZE - 1) := by
        simp only [BUF_SIZE]; split <;> omega
      simp only [hid_write]
      rw [if_neg (not_lt.mpr (hw _ _))]
      obtain ⟨b1, hb1, hl1, hh1⟩ := ih (size - (offset + (if BUF_SIZE - 1 > size - offset
          then size - offset else BUF_SIZE - 1))) (by omega) (offset + (if BUF_SIZE - 1 >
          size - offset then size - offset else BUF_SIZE - 1))
        (memcpy b 1 data offset (if BUF_SIZE - 1 > size - offset then size - offset
          else BUF_SIZE - 1))
        (calls ++ [HidCall.write ((memcpy b 1 data offset (if BUF_SIZE - 1 > size - offset
          then size - offset else BUF_SIZE - 1)).take
          ((if BUF_SIZE - 1 > size - offset then size - offset else BUF_SIZE - 1) + 1))]) rfl
        (by rw [memcpy, writeBytes_length]; exact hb) (memcpy_head b data offset _ hn h2)
      refine ⟨b1, ?_, hl1, hh1⟩
      rw [hb1, chunks_from_step data size offset hlt, memcpy_take b data offset _ hn h2]
      have hc : chunk_at data size offset = 2 :: (List.range (if BUF_SIZE - 1 > size - offset
          then size - offset else BUF_SIZE - 1)).map (fun i => data (offset + i)) := by
        simp only [chunk_at]
        congr 3
        simp only [BUF_SIZE]; split <;> omega
      rw [hc]
      simp
    · rw [if_neg hlt, chunks_from_done data size offset hlt]
      exact ⟨b, by simp, hb, h2⟩

theorem receive_status_calls (e : Endian) (dev : hid_device) (magic : Nat) (b : List Nat)
    (calls : List HidCall) :
    ∃ rest, (receive_status e dev magic b calls).calls = calls ++ rest ∧ writes rest = [] := by
  unfold receive_status
  simp only [hid_get_feature_report]
  split
  · exact ⟨[HidCall.get_feature_report BUF_SIZE], rfl, rfl⟩
  · refine ⟨[HidCall.get_feature_report BUF_SIZE, HidCall.get_feature_report BUF_SIZE], ?_, rfl⟩
    split
    · simp
    · simp only [if_neg (by decide : ¬ ((0 : Int) ≠ 0)), false_or, List.append_assoc,
        List.singleton_append]
      split <;> rfl

theorem set_head (b : List Nat) (x : Nat) (h : 0 < b.length) : (b.set 0 x).head? = some x := by
  cases b with
  | nil => simp at h
  | cons y ys => rfl

/-- With a device that accepts every write, `sdp_writeFile` sends the command
record, then the reports of `chunks_from`, and then only reads status. -/
theorem sdp_writeFile_calls (e : Endian) (dev : hid_device) (addr : Nat) (data : Nat → Nat)
    (size : Nat) (hw : ∀ h buf, 0 ≤ dev.write_rc h buf) :
    ∃ rest, (sdp_writeFile e dev addr data size).calls =
        HidCall.write ((set_write_file_cmd e ((List.replicate BUF_SIZE 0).set 0 1) 1 addr
          (size % 2 ^ 32)).take CMD_SIZE) ::
          ((chunks_from data size 0).map HidCall.write ++ rest) ∧ writes rest = [] := by
  unfold sdp_writeFile
  simp only [hid_write]
  rw [if_neg (not_lt.mpr (hw _ _))]
  obtain ⟨b1, hsc, _, _⟩ := send_contents_ok dev data size hw (size - 0) 0
    ((set_write_file_cmd e ((List.replicate BUF_SIZE 0).set 0 1) 1 addr (size % 2 ^ 32)).set 0 2)
    ([] ++ [HidCall.write ((set_write_file_cmd e ((List.replicate BUF_SIZE 0).set 0 1) 1 addr
      (size % 2 ^ 32)).take CMD_SIZE)]) rfl
    (by simp [set_write_file_cmd_length])
    (set_head _ _ (by
      rw [set_write_file_cmd_length, List.length_set, List.length_replicate]; decide))
  rw [hsc]
  obtain ⟨rest, hr, hwr⟩ := receive_status_calls e dev 0x88888888 b1
    ([] ++ [HidCall.write ((set_write_file_cmd e ((List.replicate BUF_SIZE 0).set 0 1) 1 addr
      (size % 2 ^ 32)).take CMD_SIZE)] ++ (chunks_from data size 0).map HidCall.write)
  exact ⟨rest, by simp only [hr]; simp, hwr⟩

/-- The same for `sdp_dcdWrite`. -/
theorem sdp_dcdWrite_calls (e : Endian) (dev : hid_device) (addr : Nat) (data : Nat → Nat)
    (size : Nat) (hw : ∀ h buf, 0 ≤ dev.write_rc h buf) :
    ∃ rest, (sdp_dcdWrite e dev addr data size).calls =
        HidCall.write ((set_dcd_write_cmd e ((List.replicate BUF_SIZE 0).set 0 1) 1 addr
          (size % 2 ^ 32)).take CMD_SIZE) ::
          ((chunks_from data size 0).map HidCall.write ++ rest) ∧ writes rest = [] := by
  unfold sdp_dcdWrite
  simp only [hid_write]
  rw [if_neg (not_lt.mpr (hw _ _))]
  obtain ⟨b1, hsc, _, _⟩ := send_contents_ok dev data size hw (size - 0) 0
    ((set_dcd_write_cmd e ((List.replicate BUF_SIZE 0).set 0 1) 1 addr (size % 2 ^ 32)).set 0 2)
    ([] ++ [HidCall.write ((set_dcd_write_cmd e ((List.replicate BUF_SIZE 0).set 0 1) 1 addr
      (size % 2 ^ 32)).take CMD_SIZE)]) rfl
    (by simp [set_dcd_write_cmd_length])
    (set_head _ _ (by
      rw [set_dcd_write_cmd_length, List.length_set, List.length_replicate]; decide))
  rw [hsc]
  obtain ⟨rest, hr, hwr⟩ := receive_status_calls e dev 0x12a8a812 b1
    ([] ++ [HidCall.write ((set_dcd_write_cmd e ((List.replicate BUF_SIZE 0).set 0 1) 1 addr
      (size % 2 ^ 32)).take CMD_SIZE)] ++ (chunks_from data size 0).map HidCall.write)
  exact ⟨rest, by simp only [hr]; simp, hwr⟩

/-- The reports of `chunks_from` are the chunked transfer of the specification. -/
theorem chunked_of_chunks_from (calls : List HidCall) (cmd : List Nat) (rest : List HidCall)
    (data : Nat → Nat) (size : Nat) (hcmd : cmd.length = CMD_SIZE)
    (hcalls : calls = HidCall.write cmd :: ((chunks_from data size 0).map HidCall.write ++ rest))
    (hrest : writes rest = []) : ChunkedTransfer calls data size := by
  refine ⟨cmd, chunks_from data size 0, ?_, hcmd, ?_, ?_⟩
  · rw [hcalls]
    simp [writes, writes_append, writes_map_write, hrest]
  · simp [chunks_from]
  · intro i h
    have hlen : (chunks_from data size 0).length = (size + (BUF_SIZE - 2)) / (BUF_SIZE - 1) := by
      simp [chunks_from]
    have hget : (chunks_from data size 0).get ⟨i, h⟩ = chunk_at data size ((BUF_SIZE - 1) * i) := by
      simp [chunks_from]
    rw [hget]
    have htl : (chunk_at data size ((BUF_SIZE - 1) * i)).tail.length =
        min (BUF_SIZE - 1) (size - (BUF_SIZE - 1) * i) := by
      simp [chunk_at]
    rw [hlen] at h
    refine ⟨rfl, ?_, ?_, ?_⟩
    · rw [htl]; rfl
    · intro h1
      rw [htl]
      rw [hlen] at h1
      simp only [BUF_SIZE] at h1 h ⊢
      omega
    · intro h1
      rw [htl]
      rw [hlen] at h1
      simp only [BUF_SIZE] at h1 h ⊢
      split <;> omega

theorem send_contents_extends (dev : hid_device) (data : Nat → Nat) (size : Nat) :
    ∀ (m offset : Nat) (b : List Nat) (calls : List HidCall), size - offset = m →
      ∃ rest, (send_contents dev data size offset b calls).2.2 = calls ++ rest := by
  intro m
  induction m using Nat.strong_induction_on with
  | _ m ih =>
    intro offset b calls hm
    rw [send_contents]
    by_cases hlt : offset < size
    · rw [if_pos hlt]
      have hpos : 0 < (if BUF_SIZE - 1 > size - offset then size - offset else BUF_SIZE - 1) := by
        simp only [BUF_SIZE]; split <;> omega
      simp only [hid_write]
      generalize (if BUF_SIZE - 1 > size - offset then size - offset else BUF_SIZE - 1) = n
        at hpos ⊢
      by_cases hrc : dev.write_rc calls ((memcpy b 1 data offset n).take (n + 1)) < 0
      · rw [if_pos hrc]
        exact ⟨_, rfl⟩
      · rw [if_neg hrc]
        obtain ⟨rest, hr⟩ := ih (size - (offset + n)) (by omega) (offset + n)
          (memcpy b 1 data offset n)
          (calls ++ [HidCall.write ((memcpy b 1 data offset n).take (n + 1))]) rfl
        rw [hr]
        exact ⟨_, List.append_assoc _ _ _⟩
    · rw [if_neg hlt]
      exact ⟨[], by simp⟩

/-- Whatever the device answers, the first call of `sdp_writeFile` is the
write of the command record. -/
theorem sdp_writeFile_first_call (e : Endian) (dev : hid_device) (addr : Nat)
    (data : Nat → Nat) (size : Nat) :
    ∃ rest, (sdp_writeFile e dev addr data size).calls =
      HidCall.write ((set_write_file_cmd e ((List.replicate BUF_SIZE 0).set 0 1) 1 addr
        (size % 2 ^ 32)).take CMD_SIZE) :: rest := by
  unfold sdp_writeFile
  simp only [hid_write]
  split
  · exact ⟨[], rfl⟩
  · obtain ⟨rest, hr⟩ := send_contents_extends dev data size (size - 0) 0
      ((set_write_file_cmd e ((List.replicate BUF_SIZE 0).set 0 1) 1 addr (size % 2 ^ 32)).set 0 2)
      ([] ++ [HidCall.write ((set_write_file_cmd e ((List.replicate BUF_SIZE 0).set 0 1) 1 addr
        (size % 2 ^ 32)).take CMD_SIZE)]) rfl
    split
    · rename_i heq
      rw [heq] at hr
      exact ⟨rest, by simpa using hr⟩
    · rename_i b2 calls heq
      rw [heq] at hr
      obtain ⟨rest2, hr2, _⟩ := receive_status_calls e dev 0x88888888 b2 calls
      rw [hr2]
      simp only at hr
      rw [hr]
      exact ⟨rest ++ rest2, by simp⟩

/-- C1. When every device write succeeds, `sdp_writeFile` and `sdp_dcdWrite`
send, after the 17-byte command record, exactly `ceil(size / 1024)` payload
reports; each starts with the report id 2 and carries the next bytes of the
payload, 1024 of them in every report but the last, and in the last
`size mod 1024`, or 1024 when `size` is a positive multiple of 1024; for
`size = 0` there is no payload report. `size` is within the range of the
cursor `ssize_t offset`. -/
theorem chunked_transfer_writes (e : Endian) (dev : hid_device) (addr : Nat)
    (data : Nat → Nat) (size : Nat) (_hsize : size < 2 ^ 63)
    (hw : ∀ h buf, 0 ≤ dev.write_rc h buf) :
    ChunkedTransfer (sdp_writeFile e dev addr data size).calls data size ∧
    ChunkedTransfer (sdp_dcdWrite e dev addr data size).calls data size := by
  constructor
  · obtain ⟨rest, hc, hr⟩ := sdp_writeFile_calls e dev addr data size hw
    refine chunked_of_chunks_from _ _ rest data size ?_ hc hr
    rw [List.length_take, set_write_file_cmd_length, List.length_set, List.length_replicate]
    decide
  · obtain ⟨rest, hc, hr⟩ := sdp_dcdWrite_calls e dev addr data size hw
    refine chunked_of_chunks_from _ _ rest data size ?_ hc hr
    rw [List.length_take, set_dcd_write_cmd_length, List.length_set, List.length_replicate]
    decide

/-- A payload of 2500 bytes on a device that accepts every write: three
payload reports, of 1024, 1024 and 452 bytes. -/
theorem chunked_transfer_writes_witness :
    (2500 < 2 ^ 63 ∧ ∀ h buf, 0 ≤ accepting_device.write_rc h buf) ∧
    (ChunkedTransfer (sdp_writeFile Endian.little accepting_device 0x1000
        (fun i => i % 251) 2500).calls (fun i => i % 251) 2500 ∧
      ChunkedTransfer (sdp_dcdWrite Endian.little accepting_device 0x1000
        (fun i => i % 251) 2500).calls (fun i => i % 251) 2500) :=
  ⟨⟨by norm_num, fun _ buf => Int.ofNat_nonneg buf.length⟩,
    chunked_transfer_writes Endian.little accepting_device 0x1000 (fun i => i % 251) 2500
      (by norm_num) (fun _ buf => Int.ofNat_nonneg buf.length)⟩

/-- C2. For every 32-bit address and count, the record `sdp_writeFile` writes
first is one 17-byte record, the same on a little-endian and on a big-endian
host: byte 0 is the report id 1, bytes 1 and 2 are the opcode 0x04, bytes 3-6
read big-endian are the address, byte 7 is the format tag 0x20, bytes 8-11
read big-endian are the count, and bytes 12-16 are zero. -/
theorem write_file_record_layout (dev : hid_device) (addr : Nat) (data : Nat → Nat)
    (size : Nat) (haddr : addr < 2 ^ 32) (hsize : size < 2 ^ 32) :
    ∃ r : List Nat,
      (∀ e : Endian, ∃ rest,
        (sdp_writeFile e dev addr data size).calls = HidCall.write r :: rest) ∧
      r.length = 17 ∧ r.getD 0 0 = 1 ∧ r.getD 1 0 = 0x04 ∧ r.getD 2 0 = 0x04 ∧
      be32 ((r.drop 3).take 4) = addr ∧ r.getD 7 0 = 0x20 ∧
      be32 ((r.drop 8).take 4) = size ∧ r.drop 12 = [0, 0, 0, 0, 0] := by
  refine ⟨[1, 4, 4, byteOf addr 3, byteOf addr 2, byteOf addr 1, byteOf addr 0, 32,
    byteOf size 3, byteOf size 2, byteOf size 1, byteOf size 0, 0, 0, 0, 0, 0], ?_, rfl, rfl,
    rfl, rfl, ?_, rfl, ?_, rfl⟩
  · intro e
    obtain ⟨rest, hr⟩ := sdp_writeFile_first_call e dev addr data size
    rw [write_file_record, byteOf_mod size 3 (by norm_num), byteOf_mod size 2 (by norm_num),
      byteOf_mod size 1 (by norm_num), byteOf_mod size 0 (by norm_num)] at hr
    exact ⟨rest, hr⟩
  · exact be32_byteOf addr haddr
  · exact be32_byteOf size hsize

/-- The scenario of the specification: address `0x1000`, size 256. -/
theorem write_file_record_layout_witness :
    ((0x1000 : Nat) < 2 ^ 32 ∧ (256 : Nat) < 2 ^ 32) ∧
    ∃ r : List Nat,
      (∀ e : Endian, ∃ rest,
        (sdp_writeFile e accepting_device 0x1000 (fun i => i % 251) 256).calls =
          HidCall.write r :: rest) ∧
      r.length = 17 ∧ r.getD 0 0 = 1 ∧ r.getD 1 0 = 0x04 ∧ r.getD 2 0 = 0x04 ∧
      be32 ((r.drop 3).take 4) = 0x1000 ∧ r.getD 7 0 = 0x20 ∧
      be32 ((r.drop 8).take 4) = 256 ∧ r.drop 12 = [0, 0, 0, 0, 0] :=
  ⟨⟨by norm_num, by norm_num⟩,
    write_file_record_layout accepting_device 0x1000 (fun i => i % 251) 256 (by norm_num)
      (by norm_num)⟩

/-- With a device that accepts every write, `sdp_writeFile` ends in the two
status reads, made after the command record and the payload reports. -/
theorem sdp_writeFile_eq_receive_status (e : Endian) (dev : hid_device) (addr : Nat)
    (data : Nat → Nat) (size : Nat) (hw : ∀ h buf, 0 ≤ dev.write_rc h buf) :
    ∃ b1, sdp_writeFile e dev addr data size =
      receive_status e dev 0x88888888 b1
        (HidCall.write ((set_write_file_cmd e ((List.replicate BUF_SIZE 0).set 0 1) 1 addr
          (size % 2 ^ 32)).take CMD_SIZE) :: (chunks_from data size 0).map HidCall.write) := by
  unfold sdp_writeFile
  simp only [hid_write]
  rw [if_neg (not_lt.mpr (hw _ _))]
  obtain ⟨b1, hsc, _, _⟩ := send_contents_ok dev data size hw (size - 0) 0
    ((set_write_file_cmd e ((List.replicate BUF_SIZE 0).set 0 1) 1 addr (size % 2 ^ 32)).set 0 2)
    ([] ++ [HidCall.write ((set_write_file_cmd e ((List.replicate BUF_SIZE 0).set 0 1) 1 addr
      (size % 2 ^ 32)).take CMD_SIZE)]) rfl
    (by simp [set_write_file_cmd_length])
    (set_head _ _ (by
      rw [set_write_file_cmd_length, List.length_set, List.length_replicate]; decide))
  rw [hsc]
  exact ⟨b1, rfl⟩

/-- The same for `sdp_dcdWrite`. -/
theorem sdp_dcdWrite_eq_receive_status (e : Endian) (dev : hid_device) (addr : Nat)
    (data : Nat → Nat) (size : Nat) (hw : ∀ h buf, 0 ≤ dev.write_rc h buf) :
    ∃ b1, sdp_dcdWrite e dev addr data size =
      receive_status e dev 0x12a8a812 b1
        (HidCall.write ((set_dcd_write_cmd e ((List.replicate BUF_SIZE 0).set 0 1) 1 addr
          (size % 2 ^ 32)).take CMD_SIZE) :: (chunks_from data size 0).map HidCall.write) := by
  unfold sdp_dcdWrite
  simp only [hid_write]
  rw [if_neg (not_lt.mpr (hw _ _))]
  obtain ⟨b1, hsc, _, _⟩ := send_contents_ok dev data size hw (size - 0) 0
    ((set_dcd_write_cmd e ((List.replicate BUF_SIZE 0).set 0 1) 1 addr (size % 2 ^ 32)).set 0 2)
    ([] ++ [HidCall.write ((set_dcd_write_cmd e ((List.replicate BUF_SIZE 0).set 0 1) 1 addr
      (size % 2 ^ 32)).take CMD_SIZE)]) rfl
    (by simp [set_dcd_write_cmd_length])
    (set_head _ _ (by
      rw [set_dcd_write_cmd_length, List.length_set, List.length_replicate]; decide))
  rw [hsc]
  exact ⟨b1, rfl⟩

/-- Once the first status read succeeded, the value returned is 1 when the
second read failed and 0 otherwise, whatever the status word. -/
theorem receive_status_rc (e : Endian) (dev : hid_device) (magic : Nat) (b : List Nat)
    (calls : List HidCall) (h1 : ¬ (dev.feature_report calls BUF_SIZE).1 < 5) :
    (receive_status e dev magic b calls).rc =
      if (dev.feature_report (calls ++ [HidCall.get_feature_report BUF_SIZE]) BUF_SIZE).1 < 0
      then 1 else 0 := by
  unfold receive_status
  simp only [hid_get_feature_report]
  rw [if_neg h1]
  by_cases h2 :
      (dev.feature_report (calls ++ [HidCall.get_feature_report BUF_SIZE]) BUF_SIZE).1 < 0
  · simp only [if_pos h2]
    split <;> rfl
  · simp only [if_neg h2]
    split <;> rfl

/-- Once the first status read succeeded, a second one follows and ends the call. -/
theorem receive_status_second_read (e : Endian) (dev : hid_device) (magic : Nat) (b : List Nat)
    (calls : List HidCall) (h1 : ¬ (dev.feature_report calls BUF_SIZE).1 < 5) :
    (receive_status e dev magic b calls).calls =
      (calls ++ [HidCall.get_feature_report BUF_SIZE]) ++
        [HidCall.get_feature_report BUF_SIZE] := by
  unfold receive_status
  simp only [hid_get_feature_report]
  rw [if_neg h1]
  split_ifs <;> rfl

theorem status_failing_device_first (calls : List HidCall)
    (h : HidCall.get_feature_report BUF_SIZE ∉ calls) :
    ¬ (status_failing_device.feature_report calls BUF_SIZE).1 < 5 := by
  simp [status_failing_device, h]

theorem status_failing_device_second (calls : List HidCall) :
    (status_failing_device.feature_report
      (calls ++ [HidCall.get_feature_report BUF_SIZE]) BUF_SIZE).1 = -1 := by
  simp [status_failing_device]

/-- C3 (the code at the failing input). On a device whose writes and first
status read succeed and whose second status read returns -1, `sdp_writeFile`
and `sdp_dcdWrite` return 1: the return code of the second read is not what
the caller gets. -/
theorem second_status_read_code_lost :
    (sdp_writeFile Endian.little status_failing_device 0x1000 (fun i => i % 251) 256).rc = 1 ∧
    (sdp_dcdWrite Endian.little status_failing_device 0x1000 (fun i => i % 251) 256).rc = 1 ∧
    (∃ calls, (sdp_writeFile Endian.little status_failing_device 0x1000 (fun i => i % 251)
        256).calls = calls ++ [HidCall.get_feature_report BUF_SIZE] ∧
      (status_failing_device.feature_report calls BUF_SIZE).1 = -1) := by
  have hw : ∀ (h : List HidCall) (buf : List Nat), 0 ≤ status_failing_device.write_rc h buf :=
    fun _ buf => Int.ofNat_nonneg buf.length
  obtain ⟨b1, h1⟩ := sdp_writeFile_eq_receive_status Endian.little status_failing_device 0x1000
    (fun i => i % 251) 256 hw
  obtain ⟨b2, h2⟩ := sdp_dcdWrite_eq_receive_status Endian.little status_failing_device 0x1000
    (fun i => i % 251) 256 hw
  have hno : ∀ (r : List Nat) (l : List (List Nat)),
      HidCall.get_feature_report BUF_SIZE ∉ HidCall.write r :: l.map HidCall.write := by
    intro r l
    simp
  refine ⟨?_, ?_, ?_⟩
  · rw [h1, receive_status_rc _ _ _ _ _ (status_failing_device_first _ (hno _ _)),
      status_failing_device_second]
    rfl
  · rw [h2, receive_status_rc _ _ _ _ _ (status_failing_device_first _ (hno _ _)),
      status_failing_device_second]
    rfl
  · rw [h1]
    exact ⟨_, receive_status_second_read _ _ _ _ _ (status_failing_device_first _ (hno _ _)),
      status_failing_device_second _⟩

/-! ## Waiting for the device -/

theorem enumerations_retry_rounds (k : Nat) :
    enumerations (retry_rounds k ++ [WaitCall.hid_enumerate 0x15a2 0x0]) = k + 1 ∧
    sleeps (retry_rounds k ++ [WaitCall.hid_enumerate 0x15a2 0x0]) = k := by
  induction k with
  | zero => exact ⟨rfl, rfl⟩
  | succ k ih =>
    obtain ⟨h1, h2⟩ := ih
    simp only [enumerations, sleeps] at h1 h2 ⊢
    simp only [retry_rounds, List.cons_append]
    constructor
    · rw [List.countP_cons_of_pos _ _ (by decide), List.countP_cons_of_neg _ _ (by decide), h1]
    · rw [List.countP_cons_of_neg _ _ (by decide), List.countP_cons_of_pos _ _ (by decide), h2]

/-- When the attempts from `attempt` on all fail, the loop entered with
`retries` gives up after `12 - retries` attempts in all. -/
theorem wait_loop_timeout {α : Type} (world : Nat → List (Option α)) :
    ∀ (j attempt retries : Nat), retries + j = 11 →
      (∀ n, n ≤ j → open_device_with_vid_pid (world (attempt + n)) = none) →
      wait_loop world attempt retries =
        ⟨-1, none, retry_rounds j ++ [WaitCall.hid_enumerate 0x15a2 0x0]⟩ := by
  intro j
  induction j with
  | zero =>
    intro attempt retries hr hn
    rw [wait_loop, show open_device_with_vid_pid (world attempt) = none from hn 0 (le_refl _)]
    simp only
    rw [if_pos (by omega)]
    rfl
  | succ j ih =>
    intro attempt retries hr hn
    rw [wait_loop, show open_device_with_vid_pid (world attempt) = none from hn 0 (by omega)]
    simp only
    rw [if_neg (by omega), ih (attempt + 1) (retries + 1) (by omega)
      (fun n h => by rw [Nat.add_assoc, Nat.add_comm 1 n]; exact hn (n + 1) (by omega))]
    rfl

/-- When the first `k` attempts from `attempt` on fail and the next one opens
a device, the loop returns it after `k + 1` attempts, provided the counter
allows `k` retries. -/
theorem wait_loop_success {α : Type} (world : Nat → List (Option α)) (h : α) :
    ∀ (k attempt retries : Nat), retries + k ≤ 11 →
      (∀ n, n < k → open_device_with_vid_pid (world (attempt + n)) = none) →
      open_device_with_vid_pid (world (attempt + k)) = some h →
      wait_loop world attempt retries =
        ⟨0, some h, retry_rounds k ++ [WaitCall.hid_enumerate 0x15a2 0x0]⟩ := by
  intro k
  induction k with
  | zero =>
    intro attempt retries _ _ hs
    rw [wait_loop, show open_device_with_vid_pid (world attempt) = some h from hs]
    rfl
  | succ k ih =>
    intro attempt retries hr hn hs
    rw [wait_loop, show open_device_with_vid_pid (world attempt) = none from hn 0 (by omega)]
    simp only
    rw [if_neg (by omega), ih (attempt + 1) (retries + 1) (by omega)
      (fun n hlt => by rw [Nat.add_assoc, Nat.add_comm 1 n]; exact hn (n + 1) (by omega))
      (by rw [Nat.add_assoc, Nat.add_comm 1 k]; exact hs)]
    rfl

/-- C7 as stated fails. With no device at all `wait_cmd` makes 12 enumeration
attempts, not 11, and sleeps 11 times before it returns -1. -/
theorem wait_cmd_makes_twelve_attempts :
    (wait_cmd no_device).rc = -1 ∧
    enumerations (wait_cmd no_device).calls = 12 ∧
    enumerations (wait_cmd no_device).calls ≠ 11 ∧
    sleeps (wait_cmd no_device).calls = 11 := by
  have h := wait_loop_timeout no_device 11 0 0 rfl (fun _ _ => rfl)
  unfold wait_cmd
  rw [h]
  obtain ⟨h1, h2⟩ := enumerations_retry_rounds 11
  refine ⟨rfl, h1, ?_, h2⟩
  rw [h1]
  decide

/-- C7, amended. When none of the first 12 enumeration attempts opens a
device, `wait_cmd` makes exactly 12 attempts (the initial one and 11
retries), sleeps one second between consecutive attempts, and returns -1
without a device. When attempt number `k + 1` (`k ≤ 11`) is the first to open
a device, `wait_cmd` returns 0 with that device after exactly `k + 1`
attempts, again one second apart, and makes no further attempt. -/
theorem wait_cmd_attempts {α : Type} (world : Nat → List (Option α)) :
    ((∀ n, n < 12 → open_device_with_vid_pid (world n) = none) →
      wait_cmd world =
        ⟨-1, none, retry_rounds 11 ++ [WaitCall.hid_enumerate 0x15a2 0x0]⟩ ∧
      enumerations (wait_cmd world).calls = 12 ∧ sleeps (wait_cmd world).calls = 11) ∧
    (∀ (k : Nat) (h : α), k ≤ 11 →
      (∀ n, n < k → open_device_with_vid_pid (world n) = none) →
      open_device_with_vid_pid (world k) = some h →
      wait_cmd world = ⟨0, some h, retry_rounds k ++ [WaitCall.hid_enumerate 0x15a2 0x0]⟩ ∧
      enumerations (wait_cmd world).calls = k + 1 ∧ sleeps (wait_cmd world).calls = k) := by
  constructor
  · intro hn
    have h := wait_loop_timeout world 11 0 0 rfl
      (fun n hle => by rw [Nat.zero_add]; exact hn n (by omega))
    unfold wait_cmd
    rw [h]
    exact ⟨rfl, enumerations_retry_rounds 11⟩
  · intro k h hk hn hs
    have hl := wait_loop_success world h k 0 0 (by omega)
      (fun n hlt => by rw [Nat.zero_add]; exact hn n hlt) (by rw [Nat.zero_add]; exact hs)
    unfold wait_cmd
    rw [hl]
    exact ⟨rfl, enumerations_retry_rounds k⟩

/-- Both cases at concrete environments: no device at all, and a device that
opens at the fourth attempt. -/
theorem wait_cmd_attempts_witness :
    ((∀ n, n < 12 → open_device_with_vid_pid (no_device n) = none) ∧
      enumerations (wait_cmd no_device).calls = 12 ∧ sleeps (wait_cmd no_device).calls = 11) ∧
    ((∀ n, n < 3 → open_device_with_vid_pid (late_device n) = none) ∧
      open_device_with_vid_pid (late_device 3) = some 7 ∧
      wait_cmd late_device =
        ⟨0, some 7, retry_rounds 3 ++ [WaitCall.hid_enumerate 0x15a2 0x0]⟩) :=
  ⟨⟨fun _ _ => rfl, ((wait_cmd_attempts no_device).1 (fun _ _ => rfl)).2⟩,
    ⟨fun n hn => by simp [late_device, hn, open_device_with_vid_pid], rfl,
      ((wait_cmd_attempts late_device).2 3 7 (by decide)
        (fun n hn => by simp [late_device, hn, open_device_with_vid_pid]) rfl).1⟩⟩

/-! ## The script interpreter -/

theorem dropWhile_spaces (n : Nat) (s : List Char) (h : s.head? ≠ some ' ') :
    (List.replicate n ' ' ++ s).dropWhile (fun c => c = ' ') = s := by
  induction n with
  | zero =>
    cases s with
    | nil => rfl
    | cons c cs =>
      have hc : c ≠ ' ' := fun hc => h (by rw [hc]; rfl)
      simp [List.dropWhile, hc]
  | succ n ih => simpa [List.replicate_succ, List.dropWhile] using ih

theorem takeWhile_token (tok rest : List Char) (h : ' ' ∉ tok) :
    (tok ++ ' ' :: rest).takeWhile (fun c => c ≠ ' ') = tok ∧
    tok.takeWhile (fun c => c ≠ ' ') = tok := by
  induction tok with
  | nil => simp [List.takeWhile]
  | cons c cs ih =>
    have hc : c ≠ ' ' := fun hc => h (by rw [hc]; exact List.mem_cons_self _ _)
    have hcs : ' ' ∉ cs := fun hm => h (List.mem_cons_of_mem _ hm)
    obtain ⟨h1, h2⟩ := ih hcs
    have hd : (decide (c ≠ ' ')) = true := by simpa using hc
    constructor
    · rw [List.cons_append,
        @List.takeWhile_cons_of_pos _ (fun c => decide (c ≠ ' ')) c _ hd, h1]
    · rw [@List.takeWhile_cons_of_pos _ (fun c => decide (c ≠ ' ')) c _ hd, h2]

/-- `strtok` on a line made of leading spaces, a token without spaces, and
possibly a space and more text. -/
theorem strtok_token (tok : List Char) (n : Nat) (hne : tok ≠ []) (hsp : ' ' ∉ tok) :
    strtok (List.replicate n ' ' ++ tok) = some tok ∧
    ∀ rest, strtok (List.replicate n ' ' ++ tok ++ ' ' :: rest) = some tok := by
  have hh : tok.head? ≠ some ' ' := by
    cases tok with
    | nil => exact absurd rfl hne
    | cons c cs =>
      intro hc
      simp only [List.head?_cons, Option.some.injEq] at hc
      exact hsp (by rw [hc]; exact List.mem_cons_self _ _)
  constructor
  · unfold strtok
    simp only [dropWhile_spaces n tok hh, if_neg hne, (takeWhile_token tok [] hsp).2]
  · intro rest
    have hh2 : (tok ++ ' ' :: rest).head? ≠ some ' ' := by
      cases tok with
      | nil => exact absurd rfl hne
      | cons c cs => simpa using hh
    unfold strtok
    rw [List.append_assoc]
    simp only [dropWhile_spaces n _ hh2, (takeWhile_token tok rest hsp).1]
    rw [if_neg (by simp)]

/-- What `decode_line` returns once the token `strtok` finds is known. -/
theorem decode_line_of_strtok (line tok : List Char) (len lineno : Nat)
    (h : strtok line = some tok) (h1 : tok.head? ≠ some '\n') (h2 : tok.head? ≠ some '#') :
    (without_trailing_newline tok ∈ keywords →
      decode_line line len lineno =
        some (0, [ScriptDiag.parsing lineno (without_trailing_newline tok)])) ∧
    (without_trailing_newline tok ∉ keywords →
      decode_line line len lineno =
        some (-1, [ScriptDiag.parsing lineno (without_trailing_newline tok),
          ScriptDiag.unrecognized (without_trailing_newline tok) lineno])) := by
  unfold decode_line
  simp only [h, h1, h2, ne_eq, not_false_eq_true, and_self, if_true]
  have ht : (if tok.getLast? = some '\n' then tok.dropLast else tok) =
      without_trailing_newline tok := rfl
  simp only [ht]
  generalize without_trailing_newline tok = t
  have hk : t ∈ keywords ↔ (t = "WAIT".toList ∨ t = "WRITE_FILE".toList ∨
      t = "ARGS".toList ∨ t = "JUMP_ADDRESS".toList ∨ t = "DCD_WRITE".toList ∨
      t = "PROMPT".toList ∨ t = "REBOOT".toList) := by
    simp [keywords]
  rw [hk]
  constructor
  · intro hmem
    by_cases a1 : t = "WAIT".toList
    · rw [if_pos a1]
    rw [if_neg a1]
    by_cases a2 : t = "WRITE_FILE".toList
    · rw [if_pos a2]
    rw [if_neg a2]
    by_cases a3 : t = "ARGS".toList
    · rw [if_pos a3]
    rw [if_neg a3]
    by_cases a4 : t = "JUMP_ADDRESS".toList
    · rw [if_pos a4]
    rw [if_neg a4]
    by_cases a5 : t = "DCD_WRITE".toList
    · rw [if_pos a5]
    rw [if_neg a5]
    by_cases a6 : t = "PROMPT".toList
    · rw [if_pos a6]
    rw [if_neg a6]
    by_cases a7 : t = "REBOOT".toList
    · rw [if_pos a7]
    exfalso
    rcases hmem with h | h | h | h | h | h | h <;> contradiction
  · intro hmem
    simp only [not_or] at hmem
    obtain ⟨n1, n2, n3, n4, n5, n6, n7⟩ := hmem
    rw [if_neg n1, if_neg n2, if_neg n3, if_neg n4, if_neg n5, if_neg n6, if_neg n7]

/-- C8 as stated fails. In `WAIT<tab>1` the first whitespace-delimited token
is the keyword `WAIT`, the line is neither empty nor a comment, and
`decode_line` returns -1: a tab does not end a token. -/
theorem decode_line_tab_separated :
    first_whitespace_token "WAIT\t1\n".toList = "WAIT".toList ∧
    "WAIT".toList ∈ keywords ∧
    empty_or_comment "WAIT\t1\n".toList = false ∧
    decode_line "WAIT\t1\n".toList 7 0 =
      some (-1, [ScriptDiag.parsing 0 "WAIT\t1".toList,
        ScriptDiag.unrecognized "WAIT\t1".toList 0]) := by
  decide

/-- C8, amended. Take a line made of any number of leading spaces and a first
space-delimited token (not empty, without a space) that starts neither with a
newline nor with `#`, alone or followed by a space and any further text.
`decode_line` returns 0 if the token, with a trailing newline removed, is one
of the seven keywords and -1 otherwise, and what follows the token does not
change the result. -/
theorem decode_line_first_space_token (tok : List Char) (n len lineno : Nat)
    (hne : tok ≠ []) (hsp : ' ' ∉ tok) (h1 : tok.head? ≠ some '\n')
    (h2 : tok.head? ≠ some '#') :
    ∃ rc : Int,
      (decode_line (List.replicate n ' ' ++ tok) len lineno).map Prod.fst = some rc ∧
      (∀ (rest : List Char) (len2 : Nat),
        (decode_line (List.replicate n ' ' ++ tok ++ ' ' :: rest) len2 lineno).map Prod.fst =
          some rc) ∧
      (rc = 0 ↔ without_trailing_newline tok ∈ keywords) ∧
      (rc ≠ 0 → rc = -1) := by
  obtain ⟨hs1, hs2⟩ := strtok_token tok n hne hsp
  by_cases hk : without_trailing_newline tok ∈ keywords
  · refine ⟨0, ?_, ?_, ?_, ?_⟩
    · rw [(decode_line_of_strtok _ tok len lineno hs1 h1 h2).1 hk]
      rfl
    · intro rest len2
      rw [(decode_line_of_strtok _ tok len2 lineno (hs2 rest) h1 h2).1 hk]
      rfl
    · exact ⟨fun _ => hk, fun _ => rfl⟩
    · intro h
      exact absurd rfl h
  · refine ⟨-1, ?_, ?_, ?_, ?_⟩
    · rw [(decode_line_of_strtok _ tok len lineno hs1 h1 h2).2 hk]
      rfl
    · intro rest len2
      rw [(decode_line_of_strtok _ tok len2 lineno (hs2 rest) h1 h2).2 hk]
      rfl
    · exact ⟨fun h => absurd h (by decide), fun h => absurd h hk⟩
    · intro _
      rfl

/-- The token `WRITE_FILE` after two spaces, alone or with arguments. -/
theorem decode_line_first_space_token_witness :
    ("WRITE_FILE".toList ≠ [] ∧ ' ' ∉ "WRITE_FILE".toList ∧
      "WRITE_FILE".toList.head? ≠ some '\n' ∧ "WRITE_FILE".toList.head? ≠ some '#') ∧
    ∃ rc : Int,
      (decode_line (List.replicate 2 ' ' ++ "WRITE_FILE".toList) 12 4).map Prod.fst = some rc ∧
      (∀ (rest : List Char) (len2 : Nat),
        (decode_line (List.replicate 2 ' ' ++ "WRITE_FILE".toList ++ ' ' :: rest) len2
          4).map Prod.fst = some rc) ∧
      (rc = 0 ↔ without_trailing_newline "WRITE_FILE".toList ∈ keywords) ∧
      (rc ≠ 0 → rc = -1) :=
  ⟨by decide,
    decode_line_first_space_token "WRITE_FILE".toList 2 12 4 (by decide) (by decide)
      (by decide) (by decide)⟩

/-! ## `main` -/

theorem to_int_small (n : Nat) (h : n < 2 ^ 31) : to_int n = n := by
  unfold to_int
  norm_num at h ⊢
  omega

theorem first_keyword_some (line k : List Char) (h : first_keyword line = some k) :
    ∃ tok, strtok line = some tok ∧ tok.head? ≠ some '\n' ∧ tok.head? ≠ some '#' ∧
      without_trailing_newline tok = k := by
  unfold first_keyword at h
  split at h
  · exact absurd h (by simp)
  · rename_i tok htok
    split_ifs at h with hc
    simp only [Option.some.injEq] at h
    exact ⟨tok, htok, fun h1 => hc (Or.inl h1), fun h2 => hc (Or.inr h2), h⟩

/-- An accepted line decodes to 0. -/
theorem decode_accepted (line : List Char) (len lineno : Nat) (h : accepted line = true) :
    ∃ d, decode_line line len lineno = some (0, d) ∧
      ∀ x ∈ d, ∃ t, x = ScriptDiag.parsing lineno t := by
  unfold accepted at h
  rw [Bool.or_eq_true] at h
  rcases h with h | h
  · unfold empty_or_comment at h
    split at h
    · exact absurd h (by simp)
    · rename_i tok htok
      have hc : tok.head? = some '\n' ∨ tok.head? = some '#' := by simpa using h
      refine ⟨[], ?_, by simp⟩
      unfold decode_line
      simp only [htok]
      rw [if_neg (by
        intro hn
        rcases hc with hc | hc
        · exact hn.1 hc
        · exact hn.2 hc)]
  · split at h
    · exact absurd h (by simp)
    · rename_i k hk
      have hmem : k ∈ keywords := by simpa using h
      obtain ⟨tok, htok, h1, h2, hkk⟩ := first_keyword_some line k hk
      refine ⟨[ScriptDiag.parsing lineno k], ?_, ?_⟩
      · rw [(decode_line_of_strtok line tok len lineno htok h1 h2).1 (by rw [hkk]; exact hmem),
          hkk]
      · intro x hx
        exact ⟨k, by simpa using hx⟩

/-- A line whose first keyword is not recognized decodes to -1 with the
diagnostic for the line number passed in. -/
theorem decode_unrecognized (line k : List Char) (len lineno : Nat)
    (h : first_keyword line = some k) (hk : k ∉ keywords) :
    decode_line line len lineno =
      some (-1, [ScriptDiag.parsing lineno k, ScriptDiag.unrecognized k lineno]) := by
  obtain ⟨tok, htok, h1, h2, hkk⟩ := first_keyword_some line k h
  rw [(decode_line_of_strtok line tok len lineno htok h1 h2).2 (by rw [hkk]; exact hk), hkk]

theorem cstr_nonempty (raw : List Char) (h : cstr raw ≠ []) : 0 < raw.length := by
  cases raw with
  | nil => exact absurd rfl h
  | cons c cs => simp

theorem accepted_nonempty (line : List Char) (h : accepted line = true) : line ≠ [] := by
  intro hl
  rw [hl] at h
  exact absurd h (by decide)

theorem first_keyword_nonempty (line k : List Char) (h : first_keyword line = some k) :
    line ≠ [] := by
  intro hl
  rw [hl] at h
  simp [first_keyword, strtok] at h

/-- The loop of `main` over accepted lines followed by a line with an
unrecognized keyword: it stops there, whatever follows. -/
theorem interpret_stops (bad k : List Char)
    (hbad : first_keyword (cstr bad) = some k) (hk : k ∉ keywords)
    (hblen : bad.length < 2 ^ 31) :
    ∀ (pre : List (List Char)) (lineno : Nat),
      (∀ l ∈ pre, accepted (cstr l) = true ∧ l.length < 2 ^ 31) →
      ∃ d, (∀ x ∈ d, ∃ i t, x = ScriptDiag.parsing i t) ∧
        ∀ post, interpret (pre ++ bad :: post) lineno =
          some ⟨-1, d ++ [ScriptDiag.parsing (lineno + pre.length) k,
            ScriptDiag.unrecognized k (lineno + pre.length)], pre.length + 1⟩ := by
  intro pre
  induction pre with
  | nil =>
    intro lineno _
    refine ⟨[], by simp, ?_⟩
    intro post
    have hpos : 0 < bad.length := cstr_nonempty bad (first_keyword_nonempty _ _ hbad)
    simp only [List.nil_append, interpret, to_int_small bad.length hblen]
    rw [if_pos (by exact_mod_cast hpos), decode_unrecognized _ k _ lineno hbad hk]
    rfl
  | cons l pre ih =>
    intro lineno hpre
    obtain ⟨hacc, hlen⟩ := hpre l (List.mem_cons_self _ _)
    have hpos : 0 < l.length := cstr_nonempty l (accepted_nonempty _ hacc)
    obtain ⟨d0, hd0, hpar⟩ := decode_accepted (cstr l) (to_int l.length).toNat lineno hacc
    obtain ⟨d, hd, hi⟩ := ih (lineno + 1) (fun x hx => hpre x (List.mem_cons_of_mem _ hx))
    rw [show lineno + 1 + pre.length = lineno + (pre.length + 1) by omega] at hi
    refine ⟨d0 ++ d, ?_, ?_⟩
    · intro x hx
      rcases List.mem_append.mp hx with hx | hx
      · obtain ⟨t, ht⟩ := hpar x hx
        exact ⟨lineno, t, ht⟩
      · exact hd x hx
    · intro post
      simp only [List.cons_append, interpret]
      rw [if_pos (by rw [to_int_small l.length hlen]; exact_mod_cast hpos), hd0]
      simp only [lt_self_iff_false, if_false, List.length_cons, List.append_assoc]
      have hi2 : interpret (pre.append (bad :: post)) (lineno + 1) = _ := hi post
      rw [hi2]

/-- The loop of `main` over accepted lines only: it runs to the end of the
input and returns the -1 of `getline`. -/
theorem interpret_accepted : ∀ (ls : List (List Char)) (lineno : Nat),
    (∀ l ∈ ls, accepted (cstr l) = true ∧ l.length < 2 ^ 31) →
    ∃ d, (∀ x ∈ d, ∃ i t, x = ScriptDiag.parsing i t) ∧
      interpret ls lineno = some ⟨-1, d, ls.length⟩ := by
  intro ls
  induction ls with
  | nil =>
    intro lineno _
    exact ⟨[], by simp, rfl⟩
  | cons l ls ih =>
    intro lineno hpre
    obtain ⟨hacc, hlen⟩ := hpre l (List.mem_cons_self _ _)
    have hpos : 0 < l.length := cstr_nonempty l (accepted_nonempty _ hacc)
    obtain ⟨d0, hd0, hpar⟩ := decode_accepted (cstr l) (to_int l.length).toNat lineno hacc
    obtain ⟨d, hd, hi⟩ := ih (lineno + 1) (fun x hx => hpre x (List.mem_cons_of_mem _ hx))
    refine ⟨d0 ++ d, ?_, ?_⟩
    · intro x hx
      rcases List.mem_append.mp hx with hx | hx
      · obtain ⟨t, ht⟩ := hpar x hx
        exact ⟨lineno, t, ht⟩
      · exact hd x hx
    · simp only [interpret]
      rw [if_pos (by rw [to_int_small l.length hlen]; exact_mod_cast hpos), hd0]
      simp only [lt_self_iff_false, if_false, List.length_cons, hi]

/-- A script of empty lines, comments and recognized keywords only, with
lines shorter than `2 ^ 31` bytes: `main` decodes every line and returns -1. -/
theorem main_accepted_script (content : List Char)
    (h : ∀ l ∈ getlines content, accepted (cstr l) = true ∧ l.length < 2 ^ 31) :
    ∃ d, main 2 (some content) = some ⟨-1, d, (getlines content).length⟩ := by
  obtain ⟨d, _, hd⟩ := interpret_accepted (getlines content) 0 h
  exact ⟨d, by simp only [main]; exact hd⟩

/-- C9 as stated fails. With `FOO bar` on the third line after two valid
lines, the syntax error names line 2, not line 3: the lines are numbered from
0. The fourth line is not read and `main` returns -1. -/
theorem syntax_error_line_is_zero_based :
    main 2 (some "WAIT\nWAIT 1\nFOO bar\nREBOOT\n".toList) =
      some ⟨-1, [ScriptDiag.parsing 0 "WAIT".toList, ScriptDiag.parsing 1 "WAIT".toList,
        ScriptDiag.parsing 2 "FOO".toList, ScriptDiag.unrecognized "FOO".toList 2], 3⟩ ∧
    ScriptDiag.unrecognized "FOO".toList 3 ∉
      [ScriptDiag.parsing 0 "WAIT".toList, ScriptDiag.parsing 1 "WAIT".toList,
        ScriptDiag.parsing 2 "FOO".toList, ScriptDiag.unrecognized "FOO".toList 2] := by
  decide

/-- C9, amended. Let the lines before line `k` be accepted (empty, comment
or recognized keyword), let line `k` have the unrecognized keyword `kw` as its
first space-delimited token, and let these lines be shorter than `2 ^ 31`
bytes. Whatever follows line `k`, `main` hands exactly `k` lines to
`decode_line`, its diagnostics end with the syntax error for `kw` carrying the
line number `k - 1` (lines are numbered from 0) and hold no other syntax
error, and it returns -1. Here `k = pre.length + 1`. -/
theorem syntax_error_stops_script (pre : List (List Char)) (bad kw : List Char)
    (hpre : ∀ l ∈ pre, accepted (cstr l) = true ∧ l.length < 2 ^ 31)
    (hbad : first_keyword (cstr bad) = some kw) (hkw : kw ∉ keywords)
    (hblen : bad.length < 2 ^ 31) :
    ∃ d, (∀ x ∈ d, ∃ i t, x = ScriptDiag.parsing i t) ∧
      ∀ (content : List Char) (post : List (List Char)),
        getlines content = pre ++ bad :: post →
        main 2 (some content) =
          some ⟨-1, d ++ [ScriptDiag.parsing pre.length kw,
            ScriptDiag.unrecognized kw pre.length], pre.length + 1⟩ := by
  obtain ⟨d, hd, hi⟩ := interpret_stops bad kw hbad hkw hblen pre 0 hpre
  refine ⟨d, hd, ?_⟩
  intro content post hsplit
  simp only [main, hsplit]
  rw [if_neg (by decide), hi post, Nat.zero_add]

/-- The scenario of the specification: two valid lines, then `FOO bar`. -/
theorem syntax_error_stops_script_witness :
    ((∀ l ∈ ["WAIT\n".toList, "WAIT 1\n".toList],
        accepted (cstr l) = true ∧ l.length < 2 ^ 31) ∧
      first_keyword (cstr "FOO bar\n".toList) = some "FOO".toList ∧
      "FOO".toList ∉ keywords ∧ "FOO bar\n".toList.length < 2 ^ 31) ∧
    ∃ d, (∀ x ∈ d, ∃ i t, x = ScriptDiag.parsing i t) ∧
      ∀ (content : List Char) (post : List (List Char)),
        getlines content = ["WAIT\n".toList, "WAIT 1\n".toList] ++ "FOO bar\n".toList :: post →
        main 2 (some content) =
          some ⟨-1, d ++ [ScriptDiag.parsing 2 "FOO".toList,
            ScriptDiag.unrecognized "FOO".toList 2], 3⟩ :=
  ⟨by decide,
    syntax_error_stops_script ["WAIT\n".toList, "WAIT 1\n".toList] "FOO bar\n".toList
      "FOO".toList (by decide) (by decide) (by decide) (by decide)⟩

/-- C10 (the code at the failing input). A script whose last line holds
nothing but a space and has no newline: `strtok` finds no token,
`decode_line` passes `NULL` to `strlen`, and `main` does not return -1. -/
theorem main_blank_last_line :
    getlines "WAIT\n ".toList = ["WAIT\n".toList, " ".toList] ∧
    strtok " ".toList = none ∧
    decode_line " ".toList 1 1 = none ∧
    main 2 (some "WAIT\n ".toList) = none ∧
    main 2 (some " ".toList) = none := by
  decide

end Psu

namespace Dispatch

/-! ## The dispatcher loop -/

/-- C4. In every loop iteration the dispatcher sends a reply if and only if
the receive succeeded, the handler returned zero and the message (as the
handler left it) has the error type; it then sends exactly one message, of
type error and length `MSG_MAXLEN`, to the write-side pipe in pipe mode and to
the single handle otherwise. When the handler returns non-zero nothing is
sent, whatever the type of the message. -/
theorem reply_iff_handled_error (c : Consts) (mode : dmode_t) (s : Loop) (w : World) :
    (sends (dispatch_iter c mode s w).2 ≠ [] ↔
      (0 ≤ w.recv_rc ∧ w.handle_rc = 0 ∧ msg_gettype w.handle_msg = c.MSG_ERR)) ∧
    (∀ fd m, (fd, m) ∈ sends (dispatch_iter c mode s w).2 →
      sends (dispatch_iter c mode s w).2 = [(fd, m)] ∧
      msg_gettype m = c.MSG_ERR ∧ m.len = c.MSG_MAXLEN ∧
      m.payload = w.handle_msg.payload ∧
      fd = (if mode = dmode_t.PIPE then s.fd_out else s.fd)) ∧
    (w.handle_rc ≠ 0 → sends (dispatch_iter c mode s w).2 = []) := by
  unfold dispatch_iter
  by_cases hr : w.recv_rc < 0
  · have hr2 : ¬ 0 ≤ w.recv_rc := by omega
    simp only [if_pos hr]
    split_ifs <;> simp [sends, connect_pipes, hr2]
    split_ifs <;> simp [sends]
  · have hr2 : 0 ≤ w.recv_rc := by omega
    simp only [if_neg hr]
    by_cases hh : w.handle_rc = 0
    · by_cases ht : w.handle_msg.type = c.MSG_ERR
      · simp [sends, hh, ht, hr2, msg_gettype, msg_setlen, msg_settype]
      · simp [sends, hh, ht, hr2, msg_gettype]
    · simp [sends, hh, hr2]

theorem backoffs_append (xs ys : List Event) :
    backoffs_and_reconnects (xs ++ ys) =
      backoffs_and_reconnects xs ++ backoffs_and_reconnects ys := by
  simp [backoffs_and_reconnects]

theorem connect_pipes_backoffs (c : Consts) (open_in open_out fd_out : Int) :
    backoffs_and_reconnects (connect_pipes c open_in open_out fd_out).2.2.2 =
      [Event.open_rdonly] := by
  unfold connect_pipes
  split_ifs <;> rfl

/-- A successful receive leaves the retry counter alone and triggers neither
a backoff nor a reconnect, in every mode. -/
theorem iter_success (c : Consts) (mode : dmode_t) (s : Loop) (w : World)
    (h : ¬ w.recv_rc < 0) :
    (dispatch_iter c mode s w).1.retries = s.retries ∧
    backoffs_and_reconnects (dispatch_iter c mode s w).2 = [] := by
  unfold dispatch_iter
  simp only [if_neg h]
  split_ifs <;> exact ⟨rfl, rfl⟩

/-- A failed receive in pipe mode while more than one retry is left: the
counter goes down by one, and one backoff of 10 ms is followed by one
reconnect attempt. -/
theorem iter_failure_pipe (c : Consts) (s : Loop) (w : World) (h : w.recv_rc < 0)
    (hlo : 1 < s.retries) (hhi : s.retries ≤ 2 ^ 31) :
    (dispatch_iter c dmode_t.PIPE s w).1.retries = s.retries - 1 ∧
    backoffs_and_reconnects (dispatch_iter c dmode_t.PIPE s w).2 =
      [Event.usleep 10000, Event.open_rdonly] := by
  have hr : to_int (s.retries - 1) = s.retries - 1 := by
    unfold to_int
    norm_num at hhi ⊢
    omega
  have hne : s.retries - 1 ≠ 0 := by omega
  unfold dispatch_iter
  simp only [if_pos h, if_true, hr, ne_eq, hne, not_false_eq_true]
  refine ⟨trivial, ?_⟩
  rw [backoffs_append]
  show _ ++ backoffs_and_reconnects (Event.usleep 10000 :: _) = _
  have hcons : ∀ l, backoffs_and_reconnects (Event.usleep 10000 :: l) =
      Event.usleep 10000 :: backoffs_and_reconnects l := fun l => rfl
  rw [hcons, connect_pipes_backoffs]
  rfl

/-- A failed receive outside pipe mode: no backoff, no reconnect, and the
counter stays. -/
theorem iter_failure_other (c : Consts) (mode : dmode_t) (s : Loop) (w : World)
    (h : w.recv_rc < 0) (hm : mode ≠ dmode_t.PIPE) :
    (dispatch_iter c mode s w).1.retries = s.retries ∧
    backoffs_and_reconnects (dispatch_iter c mode s w).2 = [] := by
  unfold dispatch_iter
  simp only [if_pos h, if_neg hm]
  exact ⟨trivial, rfl⟩

theorem loop_pipe (c : Consts) : ∀ (ws : List World) (s : Loop),
    (failures ws : Int) < s.retries → s.retries ≤ 2 ^ 31 →
    (dispatch_loop c dmode_t.PIPE s ws).1.retries = s.retries - failures ws ∧
    backoffs_and_reconnects (dispatch_loop c dmode_t.PIPE s ws).2 =
      ws.flatMap expected_recovery := by
  intro ws
  induction ws with
  | nil => intro s _ _; simp [dispatch_loop, failures, backoffs_and_reconnects]
  | cons w ws ih =>
    intro s hk hhi
    simp only [dispatch_loop, List.flatMap_cons, backoffs_append]
    by_cases h : w.recv_rc < 0
    · have hf : failures (w :: ws) = failures ws + 1 := by
        simp [failures, List.countP_cons, h]
      rw [hf] at hk ⊢
      push_cast at hk ⊢
      obtain ⟨h1, h2⟩ := iter_failure_pipe c s w h (by omega) hhi
      obtain ⟨h3, h4⟩ := ih (dispatch_iter c dmode_t.PIPE s w).1 (by rw [h1]; omega)
        (by rw [h1]; omega)
      rw [h3, h4, h1, h2]
      refine ⟨by omega, ?_⟩
      simp [expected_recovery, h]
    · have hf : failures (w :: ws) = failures ws := by
        simp [failures, List.countP_cons, h]
      rw [hf] at hk ⊢
      obtain ⟨h1, h2⟩ := iter_success c dmode_t.PIPE s w h
      obtain ⟨h3, h4⟩ := ih (dispatch_iter c dmode_t.PIPE s w).1 (by rw [h1]; exact hk)
        (by rw [h1]; exact hhi)
      rw [h3, h4, h1, h2]
      refine ⟨rfl, ?_⟩
      simp [expected_recovery, h]

theorem loop_other (c : Consts) (mode : dmode_t) (hm : mode ≠ dmode_t.PIPE) :
    ∀ (ws : List World) (s : Loop),
    (dispatch_loop c mode s ws).1.retries = s.retries ∧
    backoffs_and_reconnects (dispatch_loop c mode s ws).2 = [] := by
  intro ws
  induction ws with
  | nil => intro s; simp [dispatch_loop, backoffs_and_reconnects]
  | cons w ws ih =>
    intro s
    simp only [dispatch_loop, backoffs_append]
    obtain ⟨h3, h4⟩ := ih (dispatch_iter c mode s w).1
    by_cases h : w.recv_rc < 0
    · obtain ⟨h1, h2⟩ := iter_failure_other c mode s w h hm
      rw [h3, h4, h1, h2]
      exact ⟨rfl, rfl⟩
    · obtain ⟨h1, h2⟩ := iter_success c mode s w h
      rw [h3, h4, h1, h2]
      exact ⟨rfl, rfl⟩

theorem dispatch_start_retries (c : Consts) (mode : dmode_t) (st : Startup) (s : Loop)
    (h : dispatch_start c mode st = Except.ok s) : s.retries = 128 := by
  unfold dispatch_start at h
  cases mode <;> simp only at h <;> split_ifs at h <;> cases h <;> rfl

/-- C6. In pipe mode, over any sequence of receive outcomes with fewer than
128 failures, the backoffs and reconnect attempts of the loop are exactly one
10 ms backoff followed by one reconnect attempt per failed receive, in the
order of the failures, and nothing for a successful receive; the retry
counter ends at 128 minus the number of failures, and a successful receive
never changes it. In serial and UDP mode no receive outcome triggers a
backoff or a reconnect or changes the counter. -/
theorem pipe_recovery_below_128 (c : Consts) (st : Startup) (s : Loop) (ws : List World)
    (hstart : dispatch_start c dmode_t.PIPE st = Except.ok s) (hk : failures ws < 128) :
    backoffs_and_reconnects (dispatch_loop c dmode_t.PIPE s ws).2 =
      ws.flatMap expected_recovery ∧
    (dispatch_loop c dmode_t.PIPE s ws).1.retries = 128 - (failures ws : Int) ∧
    (∀ (mode : dmode_t) (s1 : Loop) (w : World), 0 ≤ w.recv_rc →
      (dispatch_iter c mode s1 w).1.retries = s1.retries) ∧
    (∀ (mode : dmode_t) (st1 : Startup) (s1 : Loop) (ws1 : List World),
      mode ≠ dmode_t.PIPE → dispatch_start c mode st1 = Except.ok s1 →
      backoffs_and_reconnects (dispatch_loop c mode s1 ws1).2 = [] ∧
      (dispatch_loop c mode s1 ws1).1.retries = 128) := by
  have hs := dispatch_start_retries c dmode_t.PIPE st s hstart
  obtain ⟨h1, h2⟩ := loop_pipe c ws s (by rw [hs]; exact_mod_cast hk) (by rw [hs]; norm_num)
  refine ⟨h2, by rw [h1, hs], ?_, ?_⟩
  · intro mode s1 w hw
    exact (iter_success c mode s1 w (by omega)).1
  · intro mode st1 s1 ws1 hm hst
    obtain ⟨h3, h4⟩ := loop_other c mode hm ws1 s1
    exact ⟨h4, by rw [h3, dispatch_start_retries c mode st1 s1 hst]⟩

/-- The scenario of the specification: five failed receives in a row, then
six successful ones; five times a backoff and a reconnect attempt, and the
counter ends at 123. -/
theorem pipe_recovery_below_128_witness :
    (dispatch_start example_consts dmode_t.PIPE example_startup =
        Except.ok ⟨3, 4, 128, 0⟩ ∧
      failures (List.replicate 5 failing_world ++ List.replicate 6 succeeding_world) < 128) ∧
    backoffs_and_reconnects (dispatch_loop example_consts dmode_t.PIPE ⟨3, 4, 128, 0⟩
      (List.replicate 5 failing_world ++ List.replicate 6 succeeding_world)).2 =
      [Event.usleep 10000, Event.open_rdonly, Event.usleep 10000, Event.open_rdonly,
        Event.usleep 10000, Event.open_rdonly, Event.usleep 10000, Event.open_rdonly,
        Event.usleep 10000, Event.open_rdonly] ∧
    (dispatch_loop example_consts dmode_t.PIPE ⟨3, 4, 128, 0⟩
      (List.replicate 5 failing_world ++ List.replicate 6 succeeding_world)).1.retries = 123 :=
  ⟨⟨rfl, by decide⟩,
    (pipe_recovery_below_128 example_consts example_startup ⟨3, 4, 128, 0⟩
      (List.replicate 5 failing_world ++ List.replicate 6 succeeding_world) rfl
      (by decide)).1,
    (pipe_recovery_below_128 example_consts example_startup ⟨3, 4, 128, 0⟩
      (List.replicate 5 failing_world ++ List.replicate 6 succeeding_world) rfl
      (by decide)).2.1⟩

/-- C5 (the code at the failing input). In pipe mode, 130 failed receives in a
row: the counter reaches 0 at the 128th failure and goes on to -2, and 129
reconnect attempts are made, more than the initial counter value; the 129th
and the 130th failure each trigger a backoff and a reconnect. -/
theorem reconnects_resume_after_exhaustion :
    dispatch_start example_consts dmode_t.PIPE example_startup = Except.ok ⟨3, 4, 128, 0⟩ ∧
    (dispatch_loop example_consts dmode_t.PIPE ⟨3, 4, 128, 0⟩
      (List.replicate 128 failing_world)).1.retries = 0 ∧
    (dispatch_loop example_consts dmode_t.PIPE ⟨3, 4, 128, 0⟩
      (List.replicate 130 failing_world)).1.retries = -2 ∧
    (backoffs_and_reconnects (dispatch_loop example_consts dmode_t.PIPE ⟨3, 4, 128, 0⟩
      (List.replicate 130 failing_world)).2).count Event.open_rdonly = 129 ∧
    backoffs_and_reconnects (dispatch_iter example_consts dmode_t.PIPE
      (dispatch_loop example_consts dmode_t.PIPE ⟨3, 4, 128, 0⟩
        (List.replicate 128 failing_world)).1 failing_world).2 =
      [Event.usleep 10000, Event.open_rdonly] := by
  refine ⟨rfl, ?_, ?_, ?_, ?_⟩ <;> decide!

end Dispatch
